import Mathlib

/-!
Verification of the es-aggregation-sg repository against its specification.

The repository contains three AWS-lambda transform components written in
Python/pandas:

* `aggregation_column_method.py`  — ColumnAggregator: group a table by two
  columns and aggregate one value column under a new name;
* `aggregation_top2_method.py` / `aggregation_top2_wrangler.py` —
  TopTwoContributor: per (period, county) partition, broadcast the largest and
  second largest value of `Q608_total` onto every row of the partition;
* `aggregation_bricks_splitter_wrangler.py` — BrickConsolidator: prune all-zero
  rows, classify each row into a brick type, fold the 3x12 prefixed columns into
  12 generic ones, and produce two grouped outputs (by region via an external
  method, and by brick type).

Tables are embedded shallowly: a pandas row becomes either a record structure
(for the top-2 method, whose columns are fixed) or an association list from
column names to integer values (for the generically-parameterised components).
Integer-valued cells are modelled as `Int`; row order inside a grouped result is
modelled as order of first appearance (pandas sorts group keys, but no claim
below depends on the order of output rows).
-/

/-! ## Generic list helpers -/

/-- Order-preserving de-duplication keeping the FIRST occurrence of each
element, as `pandas.Series.unique` does and as the incremental `county_list`
construction in `calc_top_two` does. (Mathlib's `List.dedup` keeps the last
occurrence, which would misorder the processing sequence.) -/
def uniqueFirst {α : Type} [DecidableEq α] (l : List α) : List α :=
  l.foldl (fun acc x => if x ∈ acc then acc else acc ++ [x]) []

/-! ## BrickConsolidator wrangler: order of effects (claim C3)

The `lambda_handler` of `aggregation_bricks_splitter_wrangler.py` runs one
`try` block sequentially.  An exception raised at any point skips the rest of
the block and raises `LambdaFailure`; nothing already written to S3 is undone.
The model below records, in source order (lines 104-205), each step of the
block together with the output sink that the step persists, if any.  A failure
at step `i` leaves exactly the sinks written by steps `0..i-1` persisted. -/

structure BrickStepInfo where
  name : String
  writes : Option String
deriving DecidableEq, Repr

/-- Steps of the bricks splitter `lambda_handler` try-block, in source order.
The two `aws_functions.save_to_s3` calls (lines 175 and 194) are the only steps
that persist output. -/
def brickHandlerSequence : List BrickStepInfo :=
  [⟨"get_dataframe", none⟩,
   ⟨"prune_zero_rows", none⟩,
   ⟨"calculate_row_type", none⟩,
   ⟨"sum_columns_and_drop", none⟩,
   ⟨"invoke_region_method", none⟩,
   ⟨"check_method_response", none⟩,
   ⟨"region_groupby", none⟩,
   ⟨"save_region_output", some "region_output"⟩,
   ⟨"brick_type_groupby", none⟩,
   ⟨"save_bricks_output", some "bricks_output"⟩,
   ⟨"delete_message", none⟩,
   ⟨"send_sns_message", none⟩]

/-- Index of the `if not json_response["success"]: raise MethodFailure` check
(line 162): the step at which a failure reported by the external
region-injection invocation surfaces. -/
def methodFailureStep : Nat := 5

/-- Sinks persisted when the handler's try-block fails at step `i` (steps
before `i` completed, step `i` and all later steps did not persist anything);
`none` models a run with no failure, in which every write completes. -/
def persistedOutputs : Option Nat → List String
  | none => brickHandlerSequence.filterMap (fun s => s.writes)
  | some i => (brickHandlerSequence.take i).filterMap (fun s => s.writes)

/-- Result of the whole handler: a failure at any step raises `LambdaFailure`
(the `finally` block re-raises whenever `error_message` is non-empty), a clean
run returns success. -/
def brickHandlerResult : Option Nat → Except String Unit
  | none => Except.ok ()
  | some i => Except.error ((brickHandlerSequence.getD i ⟨"", none⟩).name)

/-! ## TopTwoContributor method: response shape (claim C10) -/

/-- Minimal JSON value universe, covering what the two lambda handlers of the
top-2 pair exchange after `json.loads`. -/
inductive JValue : Type where
  | jnull : JValue
  | jbool : Bool → JValue
  | jnum : Int → JValue
  | jstr : String → JValue
  | jarr : List JValue → JValue
  | jobj : List (String × JValue) → JValue

/-- Field lookup as the wrangler's subscription `json_response["success"]`
performs it: only an object yields a field; on an array or scalar the Python
subscription raises (TypeError), modelled as `none`. -/
def jLookup : JValue → String → Option JValue
  | JValue.jobj fields, k => (fields.find? (fun kv => kv.1 == k)).map (fun kv => kv.2)
  | _, _ => none

/-- Truthiness test performed by the wrangler at line 132 of
`aggregation_top2_wrangler.py`: the branch that treats the method response as
successful requires a truthy value under the key "success". -/
def observesSuccess (j : JValue) : Bool :=
  match jLookup j "success" with
  | some (JValue.jbool b) => b
  | _ => false

/-! ## Generic tables: rows as association lists

The bricks splitter and the column method operate on tables whose column set is
a runtime parameter, so a row is embedded as an association list from column
names to integer cell values.  `getCol` is the pandas `row[name]` read (the
claims below only exercise rows that carry the referenced columns; the default
0 for an absent column is never reached in any theorem whose input rows are
well formed), `setCol` is the pandas `row[name] = v` write (update in place if
the column exists, append a new column otherwise). -/

abbrev Row : Type := List (String × Int)

def getCol (r : Row) (c : String) : Int :=
  match r.find? (fun kv => kv.1 == c) with
  | some kv => kv.2
  | none => 0

def setCol (r : Row) (c : String) (v : Int) : Row :=
  if r.any (fun kv => kv.1 == c) then
    r.map (fun kv => if kv.1 == c then (c, v) else kv)
  else
    r ++ [(c, v)]

def dropCols (r : Row) (cs : List String) : Row :=
  r.filter (fun kv => !(cs.contains kv.1))

/-! ## BrickConsolidator: prune, classify, fold (source file
`aggregation_bricks_splitter_wrangler.py`) -/

/-- Brick-type table of the wrangler (line 111), an insertion-ordered dict:
clay maps to 3, concrete to 2, sandlime to 4; iteration order over its keys is
clay, concrete, sandlime. -/
def brick_type : List (String × Int) := [("clay", 3), ("concrete", 2), ("sandlime", 4)]

/-- Prefixed question-column names (line 117): one per (base column, brick
type) pair, column-major as the list comprehension iterates. -/
def questionsList (column_list : List String) : List String :=
  column_list.flatMap (fun column => brick_type.map (fun brick => brick.1 ++ "_" ++ column))

/-- Predicate of the prune stage (lines 263-279): true when every question
column of the row sums to exactly zero. -/
def do_check (row : Row) (questions_list : List String) : Bool :=
  decide ((questions_list.map (fun q => getCol row q)).sum = 0)

/-- Prune stage (lines 120-122): keep rows whose `do_check` flag is false. -/
def pruneRows (questions_list : List String) (data : List Row) : List Row :=
  data.filter (fun row => !(do_check row questions_list))

/-- Sum of one brick type's prefixed columns across the tracked base columns,
as accumulated by the inner loop of `calculate_row_type`. -/
def typeTotal (row : Row) (check_type : String) (column_list : List String) : Int :=
  (column_list.map (fun c => getCol row (check_type ++ "_" ++ c))).sum

/-- Classification (lines 220-239): the first brick type, in the fixed order
clay, concrete, sandlime, whose block sum is strictly positive; Python's
fall-through `return None` is `none`. -/
def calculate_row_type (row : Row) (column_list : List String) : Option Int :=
  (brick_type.find? (fun bt => decide (0 < typeTotal row bt.1 column_list))).map
    (fun bt => bt.2)

/-- Classified row: the `unique_identifier[0]` (brick type) cell, kept apart
from the other columns because Python's `None` result of
`calculate_row_type` becomes a pandas missing value, which compares unequal to
every number and whose group is dropped by `groupby`. -/
structure CRow where
  t : Option Int
  r : Row
deriving DecidableEq

/-- Classification stage of the handler (lines 127-128): attach
`calculate_row_type` of each row as its brick-type cell. -/
def classifyRows (column_list : List String) (data : List Row) : List CRow :=
  data.map (fun row => ⟨calculate_row_type row column_list, row⟩)

/-- Fold stage (lines 242-260): for the brick type whose id equals the row's
brick-type cell, copy each prefixed column into its generically named base
column; the row is threaded through the loops exactly as the Python mutation
does. -/
def sum_columns (column_list : List String) (cr : CRow) : CRow :=
  ⟨cr.t,
   brick_type.foldl
     (fun row bt =>
       if cr.t = some bt.2 then
         column_list.foldl (fun rw c => setCol rw c (getCol rw (bt.1 ++ "_" ++ c))) row
       else row)
     cr.r⟩

/-- Column-drop stage (lines 136-137): every prefixed question column is
removed from the row. -/
def dropQuestions (questions_list : List String) (cr : CRow) : CRow :=
  ⟨cr.t, dropCols cr.r questions_list⟩

/-- Stages 1-3 of the handler combined: prune, classify, fold, drop.  This is
the table that both downstream aggregations start from. -/
def brickPrepare (column_list : List String) (data : List Row) : List CRow :=
  ((classifyRows column_list (pruneRows (questionsList column_list) data)).map
    (fun cr => dropQuestions (questionsList column_list) (sum_columns column_list cr)))

/-- Rows admitted to a pandas `groupby` keyed on the brick-type cell: rows
whose brick-type cell is missing (`calculate_row_type` returned None) are
dropped, as pandas drops missing group keys; the rest carry their key value
alongside the row. -/
def validRows (rows : List CRow) : List (Int × Row) :=
  rows.filterMap (fun cr => cr.t.map (fun t => (t, cr.r)))

/-- Two-part group key of `groupby(unique_identifier[0:2])`: the brick-type
cell and the next identifier column. -/
def crKey (uid1 : String) (p : Int × Row) : Int × Int := (p.1, getCol p.2 uid1)

/-- One row of the grouped result after `reset_index()`: the two key columns
followed by the summed tracked columns of the key's group. -/
def groupRow (uid0 uid1 : String) (column_list : List String)
    (valid : List (Int × Row)) (k : Int × Int) : Row :=
  ([(uid0, k.1), (uid1, k.2)] : Row) ++
    column_list.map (fun c =>
      (c, ((valid.filter (fun p => crKey uid1 p == k)).map (fun p => getCol p.2 c)).sum))

/-- Group-by-sum with the two-part key (brick-type cell, next identifier
column), mirroring
`groupby(unique_identifier[0:2]).agg(totals_dict).reset_index()`
(lines 190-191): one output row per distinct key present. -/
def brickGroupSum (uid0 uid1 : String) (column_list : List String)
    (rows : List CRow) : List Row :=
  (uniqueFirst ((validRows rows).map (crKey uid1))).map
    (groupRow uid0 uid1 column_list (validRows rows))

/-- By-brick-type aggregation stage of the handler (lines 183-191): append to
the table a copy of its non-concrete rows recoded to the merged type 1, then
group the union by (brick-type cell, next identifier column) summing every
tracked column. -/
def brickTypeAggregation (uid0 uid1 : String) (column_list : List String)
    (d : List CRow) : List CRow × List Row :=
  let recoded := (d.filter (fun cr => !(cr.t == some 2))).map
    (fun cr => (⟨some 1, cr.r⟩ : CRow))
  let union := d ++ recoded
  (union, brickGroupSum uid0 uid1 column_list union)

/-- Region-side output of the handler (lines 141-173): the prepared table is
sent to the external region-injection method, whose behaviour is an arbitrary
function `M`, and the response is grouped by the identifier columns other than
the brick type.  Only the data-dependence on the prepared table matters for the
claims, so the grouping is folded into `M`'s composition. -/
def regionOutput (M : List CRow → List Row) (column_list : List String)
    (data : List Row) : List Row :=
  M (brickPrepare column_list data)

/-- Brick-side output of the handler. -/
def bricksOutput (uid0 uid1 : String) (column_list : List String)
    (data : List Row) : List Row :=
  (brickTypeAggregation uid0 uid1 column_list (brickPrepare column_list data)).2

/-! ## TopTwoContributor method (source file `aggregation_top2_method.py`)

The input columns are fixed (period, county, Q608_total, and region, which is
carried through to the output selection on line 176), so a row is a record.
`calc_top_two` is translated loop for loop: the outer loop walks the unique
periods in order of first appearance; for each period the raw county list is
walked and a de-duplicated `county_list` is grown incrementally; after every
raw county (even a repeated one) the whole `county_list` so far is
re-processed; processing one (period, county) cell sorts the partition's
`Q608_total` values descending, takes the top value as `largest_contributor`
and, only when the partition has at least two rows, refreshes the loop-carried
`secondary_value`, then broadcasts both onto every row of the partition. -/

structure T2Row where
  county : Int
  region : Int
  period : Int
  q608 : Int
deriving DecidableEq, Repr

structure T2Out where
  county : Int
  region : Int
  period : Int
  largest_contributor : Int
  second_largest_contributor : Int
deriving DecidableEq, Repr

/-- Working row: the input row plus the two output cells, both initialised to
0 as lines 132-133 do (every row is overwritten at least once before the
function returns, so the initial value of the second cell is never visible in
the output of a non-empty input). -/
structure T2Work where
  base : T2Row
  largest : Int
  second : Int
deriving DecidableEq, Repr

/-- Mutable state of `calc_top_two`: the table plus the loop-carried
`secondary_value` accumulator declared once at line 134. -/
structure T2State where
  rows : List T2Work
  secondary : Int
deriving DecidableEq, Repr

/-- Insertion step of a descending sort. -/
def insertDesc (x : Int) : List Int → List Int
  | [] => [x]
  | y :: ys => if y ≤ x then x :: y :: ys else y :: insertDesc x ys

/-- Descending sort of the partition's values, modelling
`sort_values(by=["Q608_total"], ascending=False)` (line 158); elements equal
under the order may appear in either relative order in pandas (quicksort), but
every claim below depends only on the sorted sequence of values, which is
unique. -/
def sortDesc (l : List Int) : List Int := l.foldr insertDesc []

/-- Values of the `Q608_total` column in one (period, county) partition, in
row order (lines 154-156 restricted to the two columns and the county mask). -/
def partitionVals (rows : List T2Work) (p c : Int) : List Int :=
  (rows.filter (fun r => r.base.period == p && r.base.county == c)).map
    (fun r => r.base.q608)

/-- Body of the innermost loop of `calc_top_two` (lines 151-171) for one
county `c` of period `p`: sort the partition descending, take `iloc[0]` as the
primary value, refresh the carried secondary value only when the partition has
two or more rows, and broadcast both onto the partition's rows.  The partition
of a county drawn from the period's own county list is never empty, so the
empty case below is unreachable from `calc_top_two`. -/
def processCounty (p : Int) (st : T2State) (c : Int) : T2State :=
  match sortDesc (partitionVals st.rows p c) with
  | [] => st
  | primary :: rest =>
      let secondary := rest.headD st.secondary
      ⟨st.rows.map (fun r =>
          if r.base.period == p && r.base.county == c then ⟨r.base, primary, secondary⟩
          else r),
       secondary⟩

/-- Body of the `for temp_county in temp_county_list` loop (lines 146-171):
append the raw county to `county_list` if it is new, then re-process every
county collected so far. -/
def processTemp (p : Int) (acc : List Int × T2State) (tc : Int) : List Int × T2State :=
  let cl := if tc ∈ acc.1 then acc.1 else acc.1 ++ [tc]
  (cl, cl.foldl (processCounty p) acc.2)

/-- Body of the `for period in period_list` loop (lines 140-171). -/
def processPeriod (st : T2State) (p : Int) : T2State :=
  let temp := (st.rows.filter (fun r => r.base.period == p)).map (fun r => r.base.county)
  (temp.foldl (processTemp p) ([], st)).2

/-- The `calc_top_two` function (lines 125-176): zero the two output columns,
walk the unique periods, and project the final table onto the five output
columns in row order. -/
def calc_top_two (data : List T2Row) : List T2Out :=
  (((uniqueFirst (data.map (fun r => r.period))).foldl processPeriod
      ⟨data.map (fun r => ⟨r, 0, 0⟩), 0⟩).rows).map
    (fun r => ⟨r.base.county, r.base.region, r.base.period, r.largest, r.second⟩)

/-- Values of the `Q608_total` column of one (period, county) partition of the
input table, in row order. -/
def pvals (data : List T2Row) (p c : Int) : List Int :=
  (data.filter (fun r => r.period == p && r.county == c)).map (fun r => r.q608)

/-- Serialization of one output row as `to_json(orient="records")` emits it
(line 55 of the method handler). -/
def outRowJson (o : T2Out) : JValue :=
  JValue.jobj
    [("county", JValue.jnum o.county),
     ("region", JValue.jnum o.region),
     ("period", JValue.jnum o.period),
     ("largest_contributor", JValue.jnum o.largest_contributor),
     ("second_largest_contributor", JValue.jnum o.second_largest_contributor)]

/-- Value seen by the wrangler after `json.loads` of the method handler's
return (lines 114-122 of `aggregation_top2_method.py`): the success path
returns the bare record array of the result table, the failure path returns
the error envelope with `success: false`. -/
def top2MethodResponse : Except String (List T2Row) → JValue
  | Except.ok rows => JValue.jarr ((calc_top_two rows).map outRowJson)
  | Except.error msg =>
      JValue.jobj [("success", JValue.jbool false), ("error", JValue.jstr msg)]

/-! ## ColumnAggregator method (source file `aggregation_column_method.py`) -/

/-- Recognised reduction kinds (docstring line 29: "e.g. sum, count,
nunique"). -/
inductive AggType : Type where
  | aggSum : AggType
  | aggCount : AggType
  | aggNunique : AggType
deriving DecidableEq, Repr

/-- Application of a reduction to the multiset of values of one group. -/
def applyAgg : AggType → List Int → Int
  | AggType.aggSum, l => l.sum
  | AggType.aggCount, l => (l.length : Int)
  | AggType.aggNunique, l => (l.dedup.length : Int)

/-- Group key of one row: the ordered pair of the two group-by columns, in the
order `groupby([additional_aggregated_column, aggregated_column])` lists them
(lines 62-63). -/
def keyPair (addl agg : String) (r : Row) : Int × Int :=
  (getCol r addl, getCol r agg)

/-- The `groupby(...).agg({total_column: aggregation_type}).reset_index()`
step (lines 62-66): one output row per distinct key pair, holding the two key
columns followed by the reduced value column still under its input name. -/
def aggByColumn (addl agg total : String) (how : AggType) (rows : List Row) :
    List Row :=
  (uniqueFirst (rows.map (keyPair addl agg))).map (fun k =>
    [(addl, k.1), (agg, k.2),
     (total,
      applyAgg how
        ((rows.filter (fun r => keyPair addl agg r == k)).map (fun r => getCol r total)))])

/-- The `rename(columns={total_column: cell_total_column})` step (lines
68-71) applied to one row. -/
def renameCol (src dst : String) (r : Row) : Row :=
  r.map (fun kv => if kv.1 == src then (dst, kv.2) else kv)

/-- Whole transform of the column method's success path: group, aggregate,
rename. -/
def columnMethodAgg (addl agg total cell : String) (how : AggType)
    (rows : List Row) : List Row :=
  (aggByColumn addl agg total how rows).map (renameCol total cell)

/-! ## Concrete example data used by counterexamples and witnesses -/

/-- Input with one (period 1, county 2) partition of two rows processed before
the singleton (period 1, county 7) partition. -/
def c1data : List T2Row := [⟨2, 0, 1, 10⟩, ⟨2, 0, 1, 20⟩, ⟨7, 0, 1, 5⟩]

/-- Single-row input: one county, one period, value 5. -/
def c1single : List T2Row := [⟨7, 0, 1, 5⟩]

/-- Input of one (period 1, county 5) partition with values 10, 30, 20. -/
def c5data : List T2Row := [⟨5, 0, 1, 10⟩, ⟨5, 0, 1, 30⟩, ⟨5, 0, 1, 20⟩]

/-- Row whose prefixed question columns sum to -5 (non-zero), with no strictly
positive brick-type block. -/
def c2row : Row := [("clay_X", 0), ("concrete_X", -5), ("sandlime_X", 0)]

/-- Row whose only non-zero prefixed value is clay_X = 7. -/
def c7row : Row := [("clay_X", 7), ("concrete_X", 0), ("sandlime_X", 0)]

/-- Row with every prefixed question column zero. -/
def c6zero : Row := [("clay_X", 0), ("concrete_X", 0), ("sandlime_X", 0)]

/-- Two-row table sharing one (strata, county) group, for the column method. -/
def c9rows : List Row :=
  [[("strata", 1), ("county", 1), ("Q608_total", 5)],
   [("strata", 1), ("county", 1), ("Q608_total", 6)]]

/-- Three-row table with two distinct (region, county) groups. -/
def c4rows : List Row :=
  [[("region", 1), ("county", 2), ("Q608_total", 5)],
   [("region", 1), ("county", 2), ("Q608_total", 7)],
   [("region", 1), ("county", 3), ("Q608_total", 9)]]

/-- Witness data for the by-brick-type aggregation: a clay row, a sandlime row
and a concrete row sharing identifier 9. -/
def c8data : List CRow :=
  [⟨some 3, [("enterprise_ref", 9), ("X", 4)]⟩,
   ⟨some 4, [("enterprise_ref", 9), ("X", 6)]⟩,
   ⟨some 2, [("enterprise_ref", 9), ("X", 11)]⟩]

/-- Target property of claim C5 for one (period, county) pair: every working
row of the pair carries the partition's maximum as its largest value and, when
the partition has at least two rows, the second element of the descending sort
as its second value. -/
def GoodPair (data : List T2Row) (p c : Int) (rows : List T2Work) : Prop :=
  ∀ r ∈ rows, r.base.period = p → r.base.county = c →
    (r.largest ∈ pvals data p c ∧ ∀ v ∈ pvals data p c, v ≤ r.largest) ∧
    (2 ≤ (pvals data p c).length →
      r.second = (sortDesc (pvals data p c)).getD 1 0)

/-- Invariant of the stale-value analysis: the loop-carried secondary value is
still 0 and every working row's second cell is 0. -/
def ZeroSecondInv (data : List T2Row) (st : T2State) : Prop :=
  st.rows.map (fun r => r.base) = data ∧ st.secondary = 0 ∧
    ∀ r ∈ st.rows, r.second = 0

/-! ## Theorems -/

theorem uniqueFirst_go_mem {α : Type} [DecidableEq α] (l : List α) (acc : List α) (a : α) :
    a ∈ l.foldl (fun acc x => if x ∈ acc then acc else acc ++ [x]) acc ↔ a ∈ acc ∨ a ∈ l := by
  induction l generalizing acc with
  | nil => simp
  | cons x xs ih =>
      simp only [List.foldl_cons, ih, List.mem_cons]
      by_cases hx : x ∈ acc
      · simp [hx]
        constructor
        · rintro (h | h)
          · exact Or.inl h
          · exact Or.inr (Or.inr h)
        · rintro (h | h | h)
          · exact Or.inl h
          · exact Or.inl (h ▸ hx)
          · exact Or.inr h
      · simp [hx, List.mem_append]
        tauto

theorem mem_uniqueFirst {α : Type} [DecidableEq α] (l : List α) (a : α) :
    a ∈ uniqueFirst l ↔ a ∈ l := by
  unfold uniqueFirst
  rw [uniqueFirst_go_mem]
  simp

theorem uniqueFirst_go_nodup {α : Type} [DecidableEq α] (l : List α) (acc : List α)
    (h : acc.Nodup) :
    (l.foldl (fun acc x => if x ∈ acc then acc else acc ++ [x]) acc).Nodup := by
  induction l generalizing acc with
  | nil => simpa using h
  | cons x xs ih =>
      simp only [List.foldl_cons]
      by_cases hx : x ∈ acc
      · simpa [hx] using ih acc h
      · refine ih _ ?_
        simp only [hx, if_false]
        refine List.Nodup.append h (List.nodup_singleton x) ?_
        intro b hb hbx
        simp only [List.mem_singleton] at hbx
        exact hx (hbx ▸ hb)

theorem nodup_uniqueFirst {α : Type} [DecidableEq α] (l : List α) :
    (uniqueFirst l).Nodup :=
  uniqueFirst_go_nodup l [] List.nodup_nil

theorem uniqueFirst_length_eq_dedup {α : Type} [DecidableEq α] (l : List α) :
    (uniqueFirst l).length = l.dedup.length := by
  refine List.Perm.length_eq ?_
  refine (List.perm_ext_iff_of_nodup (nodup_uniqueFirst l) (List.nodup_dedup l)).mpr ?_
  intro a
  rw [mem_uniqueFirst, List.mem_dedup]

theorem sum_map_add {α : Type} (l : List α) (f g : α → Int) :
    (l.map (fun x => f x + g x)).sum = (l.map f).sum + (l.map g).sum := by
  induction l with
  | nil => simp
  | cons x xs ih => simp [ih]; ring

/-- Exchange of a double list-sum; used to relate the prune-stage sum (one flat
sum over all 36 prefixed columns) to the per-brick-type block sums of the
classification stage. -/
theorem sum_flatMap_comm {α β : Type} (l : List α) (m : List β) (f : α → β → Int) :
    (l.flatMap (fun a => m.map (fun b => f a b))).sum
      = (m.map (fun b => (l.map (fun a => f a b)).sum)).sum := by
  induction l with
  | nil => simp
  | cons x xs ih =>
      simp only [List.flatMap_cons, List.sum_append, ih, List.map_cons, List.sum_cons]
      rw [← sum_map_add]

/-- Members of a list whose matching sublist is a singleton are equal: if the
filter of `l` by `p` has length 1 then any two members satisfying `p` coincide.
Used for the broadcast property on partitions of size one. -/
theorem eq_of_filter_length_one {α : Type} (l : List α) (p : α → Bool)
    (h : (l.filter p).length = 1) (a b : α)
    (ha : a ∈ l) (hpa : p a = true) (hb : b ∈ l) (hpb : p b = true) : a = b := by
  have ha' : a ∈ l.filter p := List.mem_filter.mpr ⟨ha, hpa⟩
  have hb' : b ∈ l.filter p := List.mem_filter.mpr ⟨hb, hpb⟩
  rcases hf : l.filter p with _ | ⟨x, xs⟩
  · rw [hf] at ha'; simp at ha'
  · rw [hf] at h ha' hb'
    have hxs : xs = [] := by
      simpa using h
    subst hxs
    simp at ha' hb'
    rw [ha', hb']

theorem find?_setCol_map_ne (r : Row) (c c' : String) (v : Int) (h : c' ≠ c) :
    (r.map (fun kv => if kv.1 == c then (c, v) else kv)).find? (fun kv => kv.1 == c')
      = r.find? (fun kv => kv.1 == c') := by
  induction r with
  | nil => rfl
  | cons kv kvs ih =>
      simp only [List.map_cons]
      by_cases hk : kv.1 = c
      · have hb : (kv.1 == c) = true := beq_iff_eq.mpr hk
        have hcc' : ((c, v).1 == c') = false := by
          simp only [beq_eq_false_iff_ne, ne_eq]
          exact fun hcc => h hcc.symm
        have hkv : (kv.1 == c') = false := by
          simp only [beq_eq_false_iff_ne, ne_eq]
          exact fun hcc => h (hcc ▸ hk)
        rw [if_pos hb, List.find?_cons_of_neg _ (by simp [hcc']),
          List.find?_cons_of_neg _ (by simp [hkv]), ih]
      · have hb : (kv.1 == c) = false := beq_eq_false_iff_ne.mpr hk
        rw [if_neg (by simp [hb])]
        by_cases hk' : kv.1 = c'
        · have hb' : (kv.1 == c') = true := beq_iff_eq.mpr hk'
          rw [List.find?_cons_of_pos (p := fun x : String × Int => x.1 == c') _ hb',
            List.find?_cons_of_pos (p := fun x : String × Int => x.1 == c') _ hb']
        · have hb' : (kv.1 == c') = false := beq_eq_false_iff_ne.mpr hk'
          rw [List.find?_cons_of_neg _ (by simp [hb']),
            List.find?_cons_of_neg _ (by simp [hb']), ih]

theorem getCol_setCol_ne (r : Row) (c c' : String) (v : Int) (h : c' ≠ c) :
    getCol (setCol r c v) c' = getCol r c' := by
  unfold getCol setCol
  by_cases hmem : r.any (fun kv => kv.1 == c)
  · rw [if_pos hmem, find?_setCol_map_ne r c c' v h]
  · rw [if_neg hmem, List.find?_append]
    have hone : List.find? (fun kv => kv.1 == c') [(c, v)] = none := by
      refine List.find?_eq_none.mpr ?_
      intro x hx
      simp only [List.mem_singleton] at hx
      subst hx
      simp only [Bool.not_eq_true, beq_eq_false_iff_ne, ne_eq]
      exact fun hcc => h hcc.symm
    rw [hone]
    cases List.find? (fun kv => kv.1 == c') r <;> rfl

theorem find?_setCol_map_self (r : Row) (c : String) (v : Int)
    (h : r.any (fun kv => kv.1 == c) = true) :
    (r.map (fun kv => if kv.1 == c then (c, v) else kv)).find? (fun kv => kv.1 == c)
      = some (c, v) := by
  induction r with
  | nil => simp at h
  | cons kv kvs ih =>
      simp only [List.map_cons]
      by_cases hk : kv.1 = c
      · have hb : (kv.1 == c) = true := beq_iff_eq.mpr hk
        rw [if_pos hb, List.find?_cons_of_pos _ (by simp)]
      · have hb : (kv.1 == c) = false := beq_eq_false_iff_ne.mpr hk
        have h' : kvs.any (fun kv => kv.1 == c) = true := by
          rcases List.any_eq_true.mp h with ⟨x, hx, hxc⟩
          rcases List.mem_cons.mp hx with hx1 | hx2
          · exact absurd (beq_iff_eq.mp hxc) (hx1 ▸ hk)
          · exact List.any_eq_true.mpr ⟨x, hx2, hxc⟩
        rw [if_neg (by simp [hb]), List.find?_cons_of_neg _ (by simp [hb]), ih h']

theorem getCol_setCol_self (r : Row) (c : String) (v : Int) :
    getCol (setCol r c v) c = v := by
  unfold getCol setCol
  by_cases hmem : r.any (fun kv => kv.1 == c)
  · rw [if_pos hmem, find?_setCol_map_self r c v hmem]
  · rw [if_neg hmem, List.find?_append]
    have hr : List.find? (fun kv => kv.1 == c) r = none := by
      refine List.find?_eq_none.mpr ?_
      intro x hx hxc
      exact hmem (List.any_eq_true.mpr ⟨x, hx, hxc⟩)
    rw [hr]
    simp [List.find?]

/-- Claim C3 (counterexample): a failure in the brick-type group-by stage —
after the region output has been saved — leaves exactly the region output
persisted: the operation fails, yet the persisted set is neither empty nor the
full pair of outputs, refuting "either both ... or neither". -/
theorem brickWrangler_partial_output_counterexample :
    brickHandlerResult (some 8) = Except.error "brick_type_groupby" ∧
    ¬(persistedOutputs (some 8) = [] ∨
      persistedOutputs (some 8) = ["region_output", "bricks_output"]) :=
  ⟨rfl, by decide⟩

/-- Claim C3 (amended): a failure at or before the region save (step 7) —
including the failure raised when the external region-injection invocation
reports failure (step 5) — persists nothing; a failure in the brick-type
group-by or its save (steps 8-9) persists exactly the region output; a failure
after both saves (steps 10-11) leaves both outputs persisted.  Every failure
makes the whole handler fail. -/
theorem brickWrangler_failure_persistence (i : Nat) (h : i < 12) :
    brickHandlerResult (some i) ≠ Except.ok () ∧
    persistedOutputs (some i) =
      (if i ≤ 7 then [] else if i ≤ 9 then ["region_output"]
       else ["region_output", "bricks_output"]) ∧
    persistedOutputs (some methodFailureStep) = [] := by
  refine ⟨fun hc => Except.noConfusion hc, ?_, by decide⟩
  interval_cases i <;> decide

/-- Witness for `brickWrangler_failure_persistence` at the concrete failing
step 8. -/
theorem brickWrangler_failure_persistence_witness :
    (8 : Nat) < 12 ∧
    (brickHandlerResult (some 8) ≠ Except.ok () ∧
     persistedOutputs (some 8) = ["region_output"]) := by
  have h := brickWrangler_failure_persistence 8 (by decide)
  exact ⟨by decide, h.1, by simpa using h.2.1⟩

/-- Claim C10: the top-2 method's success path returns the bare record array,
which carries no "success" key at all (`jLookup` yields `none`, so the
wrangler's `json_response["success"]` subscription cannot succeed); the
envelope with `success: false` appears only on the failure path; consequently
the wrangler's success check never observes a successful method result. -/
theorem top2Method_success_response_shape :
    (∀ rows : List T2Row,
        jLookup (top2MethodResponse (Except.ok rows)) "success" = none) ∧
    (∀ msg : String,
        jLookup (top2MethodResponse (Except.error msg)) "success"
          = some (JValue.jbool false)) ∧
    (∀ inp : Except String (List T2Row),
        observesSuccess (top2MethodResponse inp) = false) := by
  refine ⟨fun rows => rfl, fun msg => rfl, fun inp => ?_⟩
  cases inp with
  | ok rows => rfl
  | error msg => rfl

/-- Claim C2 (counterexample): a row whose question columns sum to -5 survives
the prune (the sum is not exactly zero) yet no brick-type block is strictly
positive, so `calculate_row_type` falls through and returns no category. -/
theorem calculate_row_type_fallthrough_counterexample :
    do_check c2row (questionsList ["X"]) = false ∧
    calculate_row_type c2row ["X"] = none := by decide

/-- Rearrangement of the prune-stage sum: the flat sum over all prefixed
question columns equals the sum of the three per-brick-type block sums the
classification stage inspects. -/
theorem questions_sum_eq_type_totals (row : Row) (cols : List String) :
    ((questionsList cols).map (getCol row)).sum
      = (brick_type.map (fun bt => typeTotal row bt.1 cols)).sum := by
  unfold questionsList typeTotal
  rw [List.map_flatMap]
  have h : ∀ c : String,
      (List.map (getCol row) (brick_type.map (fun b => b.1 ++ "_" ++ c)))
        = brick_type.map (fun b => getCol row (b.1 ++ "_" ++ c)) := by
    intro c
    rw [List.map_map]
    rfl
  simp only [h]
  exact sum_flatMap_comm cols brick_type (fun c b => getCol row (b.1 ++ "_" ++ c))

/-- Claim C2 (amended): for a row all of whose question-column values are
nonnegative, surviving the prune (row sum not exactly zero) guarantees that
some brick-type block sum is strictly positive, so `calculate_row_type`
returns a category id. -/
theorem calculate_row_type_some_of_nonneg (row : Row) (column_list : List String)
    (hnn : ∀ q ∈ questionsList column_list, 0 ≤ getCol row q)
    (hsurv : do_check row (questionsList column_list) = false) :
    (calculate_row_type row column_list).isSome = true := by
  rcases hcr : calculate_row_type row column_list with _ | t
  · exfalso
    have hfind : brick_type.find?
        (fun bt => decide (0 < typeTotal row bt.1 column_list)) = none := by
      unfold calculate_row_type at hcr
      cases hf : brick_type.find? (fun bt => decide (0 < typeTotal row bt.1 column_list)) with
      | none => rfl
      | some b => rw [hf] at hcr; simp at hcr
    have hall : ∀ bt ∈ brick_type, typeTotal row bt.1 column_list ≤ 0 := by
      intro bt hbt
      have hx := List.find?_eq_none.mp hfind bt hbt
      simpa [not_lt] using hx
    have hge : ∀ bt ∈ brick_type, 0 ≤ typeTotal row bt.1 column_list := by
      intro bt hbt
      unfold typeTotal
      refine List.sum_nonneg ?_
      intro x hx
      rcases List.mem_map.mp hx with ⟨c, hc, rfl⟩
      refine hnn _ ?_
      refine List.mem_flatMap.mpr ⟨c, hc, ?_⟩
      exact List.mem_map.mpr ⟨bt, hbt, rfl⟩
    have hzero : ((questionsList column_list).map (getCol row)).sum = 0 := by
      rw [questions_sum_eq_type_totals]
      refine List.sum_eq_zero ?_
      intro x hx
      rcases List.mem_map.mp hx with ⟨bt, hbt, rfl⟩
      exact le_antisymm (hall bt hbt) (hge bt hbt)
    unfold do_check at hsurv
    exact (of_decide_eq_false hsurv) hzero
  · rfl

/-- Witness for `calculate_row_type_some_of_nonneg` on the clay_X = 7 row. -/
theorem calculate_row_type_some_of_nonneg_witness :
    ((∀ q ∈ questionsList ["X"], 0 ≤ getCol c7row q) ∧
     do_check c7row (questionsList ["X"]) = false) ∧
    (calculate_row_type c7row ["X"]).isSome = true :=
  ⟨⟨by decide, by decide⟩,
   calculate_row_type_some_of_nonneg c7row ["X"] (by decide) (by decide)⟩

/-- Claim C6: a row is pruned exactly when its question columns sum to zero,
pruning never increases the row count, and an all-zero row contributes to
neither downstream output: prepending it to the input leaves the pruned table,
the region-side output (for every behaviour of the external region-injection
method) and the brick-side output unchanged. -/
theorem prune_characterisation (column_list : List String) (data : List Row) (row : Row) :
    (∀ r : Row, r ∈ pruneRows (questionsList column_list) data ↔
        r ∈ data ∧ ((questionsList column_list).map (getCol r)).sum ≠ 0) ∧
    (pruneRows (questionsList column_list) data).length ≤ data.length ∧
    (((questionsList column_list).map (getCol row)).sum = 0 →
      pruneRows (questionsList column_list) (row :: data)
          = pruneRows (questionsList column_list) data ∧
      (∀ M : List CRow → List Row,
          regionOutput M column_list (row :: data) = regionOutput M column_list data) ∧
      (∀ uid0 uid1 : String,
          bricksOutput uid0 uid1 column_list (row :: data)
            = bricksOutput uid0 uid1 column_list data)) := by
  refine ⟨?_, List.length_filter_le _ _, ?_⟩
  · intro r
    unfold pruneRows do_check
    rw [List.mem_filter]
    simp [decide_eq_false_iff_not]
  · intro hz
    have hp : pruneRows (questionsList column_list) (row :: data)
        = pruneRows (questionsList column_list) data := by
      unfold pruneRows do_check
      refine List.filter_cons_of_neg ?_
      simp [hz]
    refine ⟨hp, ?_, ?_⟩
    · intro M
      unfold regionOutput brickPrepare
      rw [hp]
    · intro uid0 uid1
      unfold bricksOutput brickPrepare
      rw [hp]

/-- Witness for `prune_characterisation`: the all-zero row is dropped and
leaves the pruned table unchanged. -/
theorem prune_characterisation_witness :
    (((questionsList ["X"]).map (getCol c6zero)).sum = 0) ∧
    pruneRows (questionsList ["X"]) (c6zero :: [c7row])
      = pruneRows (questionsList ["X"]) [c7row] := by
  refine ⟨by decide, ?_⟩
  exact ((prune_characterisation ["X"] [c7row] c6zero).2.2 (by decide)).1

/-- Claim C4: the column method's output has exactly one row per distinct
(additional_aggregated_column, aggregated_column) pair of the input, and every
output row's columns are exactly the two group-key columns followed by the
renamed total column. -/
theorem columnMethod_output_shape (addl agg total cell : String) (how : AggType)
    (rows : List Row) (h1 : addl ≠ total) (h2 : agg ≠ total) :
    (columnMethodAgg addl agg total cell how rows).length
        = ((rows.map (keyPair addl agg)).dedup).length ∧
    ∀ r ∈ columnMethodAgg addl agg total cell how rows,
        r.map Prod.fst = [addl, agg, cell] := by
  constructor
  · unfold columnMethodAgg aggByColumn
    rw [List.length_map, List.length_map, uniqueFirst_length_eq_dedup]
  · intro r hr
    unfold columnMethodAgg at hr
    rcases List.mem_map.mp hr with ⟨r0, hr0, rfl⟩
    unfold aggByColumn at hr0
    rcases List.mem_map.mp hr0 with ⟨k, hk, rfl⟩
    have hb1 : (addl == total) = false := beq_eq_false_iff_ne.mpr h1
    have hb2 : (agg == total) = false := beq_eq_false_iff_ne.mpr h2
    simp [renameCol, hb1, hb2, h1, h2]

/-- Witness for `columnMethod_output_shape` on a concrete three-row table. -/
theorem columnMethod_output_shape_witness :
    ("region" ≠ "Q608_total" ∧ "county" ≠ "Q608_total") ∧
    (columnMethodAgg "region" "county" "Q608_total" "county_total"
        AggType.aggSum c4rows).length
      = ((c4rows.map (keyPair "region" "county")).dedup).length :=
  ⟨⟨by decide, by decide⟩,
   (columnMethod_output_shape "region" "county" "Q608_total" "county_total"
      AggType.aggSum c4rows (by decide) (by decide)).1⟩

/-- Claim C9 (counterexample): with the `count` reduction, re-applying the
column method to its own output (value column `county_total`, new output
column `re_total`) yields count 1 for the collapsed group, not the original
count 2, so the second application is not a mere renaming of the first. -/
theorem columnAggregator_idempotence_counterexample :
    columnMethodAgg "strata" "county" "county_total" "re_total" AggType.aggCount
        (columnMethodAgg "strata" "county" "Q608_total" "county_total"
          AggType.aggCount c9rows)
      ≠ (columnMethodAgg "strata" "county" "Q608_total" "county_total"
          AggType.aggCount c9rows).map (renameCol "county_total" "re_total") := by
  decide

theorem uniqueFirst_go_eq_append {α : Type} [DecidableEq α] (l : List α) (acc : List α)
    (hd : ∀ x ∈ l, x ∉ acc) (hn : l.Nodup) :
    l.foldl (fun acc x => if x ∈ acc then acc else acc ++ [x]) acc = acc ++ l := by
  induction l generalizing acc with
  | nil => simp
  | cons x xs ih =>
      have hx : x ∉ acc := hd x (List.mem_cons_self x xs)
      rcases List.nodup_cons.mp hn with ⟨hxn, hxs⟩
      simp only [List.foldl_cons, hx, if_false]
      rw [ih (acc ++ [x]) ?side hxs]
      · simp
      case side =>
        intro y hy
        simp only [List.mem_append, List.mem_singleton]
        rintro (hya | hyx)
        · exact hd y (List.mem_cons_of_mem x hy) hya
        · exact hxn (hyx ▸ hy)

theorem uniqueFirst_eq_self_of_nodup {α : Type} [DecidableEq α] (l : List α)
    (h : l.Nodup) : uniqueFirst l = l := by
  unfold uniqueFirst
  have hgo := uniqueFirst_go_eq_append l [] (by simp) h
  simpa using hgo

theorem filter_beq_of_nodup {α : Type} [BEq α] [LawfulBEq α] (l : List α) (k : α)
    (hn : l.Nodup) (hk : k ∈ l) : l.filter (fun x => x == k) = [k] := by
  induction l with
  | nil => simp at hk
  | cons a as ih =>
      rcases List.nodup_cons.mp hn with ⟨ha, has⟩
      rcases List.mem_cons.mp hk with rfl | hk'
      · rw [List.filter_cons_of_pos (p := fun x => x == k) (by simp)]
        have hnil : as.filter (fun x => x == k) = [] := by
          refine List.filter_eq_nil_iff.mpr ?_
          intro x hx
          simp only [beq_iff_eq, Bool.not_eq_true]
          intro hxa
          exact absurd (hxa ▸ hx) ha
        rw [hnil]
      · have hna : ¬((fun x => x == k) a) = true := by
          simp only [beq_iff_eq]
          intro hak
          exact ha (hak ▸ hk')
        rw [List.filter_cons_of_neg (p := fun x => x == k) hna, ih has hk']

/-- Claim C9 (amended): with the `sum` reduction, applying the column method a
second time to its own output — the renamed output column as the new value
column, the same two group-by columns — returns exactly the first output up to
renaming the value column; the counting reductions (`count`, `nunique`) do not
satisfy this. -/
theorem columnAggregator_sum_idempotent (addl agg total cell cell2 : String)
    (rows : List Row) (haa : addl ≠ agg) (h1 : addl ≠ total) (h2 : agg ≠ total)
    (h3 : addl ≠ cell) (h4 : agg ≠ cell) :
    columnMethodAgg addl agg cell cell2 AggType.aggSum
        (columnMethodAgg addl agg total cell AggType.aggSum rows)
      = (columnMethodAgg addl agg total cell AggType.aggSum rows).map
          (renameCol cell cell2) := by
  have hb1 : (addl == total) = false := beq_eq_false_iff_ne.mpr h1
  have hb2 : (agg == total) = false := beq_eq_false_iff_ne.mpr h2
  have hb3 : (addl == cell) = false := beq_eq_false_iff_ne.mpr h3
  have hb4 : (agg == cell) = false := beq_eq_false_iff_ne.mpr h4
  have hbaa : (addl == agg) = false := beq_eq_false_iff_ne.mpr haa
  set K := uniqueFirst (rows.map (keyPair addl agg)) with hK
  have hKnd : K.Nodup := nodup_uniqueFirst _
  set s : Int × Int → Int := fun k =>
    ((rows.filter (fun r => keyPair addl agg r == k)).map (fun r => getCol r total)).sum
    with hs
  set mkc : Int × Int → Row := fun k => [(addl, k.1), (agg, k.2), (cell, s k)] with hmkc
  have hout1 : columnMethodAgg addl agg total cell AggType.aggSum rows = K.map mkc := by
    unfold columnMethodAgg aggByColumn renameCol
    rw [List.map_map]
    refine List.map_congr_left ?_
    intro k _
    simp [Function.comp, hb1, hb2, hmkc, hs, applyAgg, h1, h2]
  have hgetAddl : ∀ k : Int × Int, getCol (mkc k) addl = k.1 := by
    intro k
    simp [hmkc, getCol, List.find?]
  have hgetAgg : ∀ k : Int × Int, getCol (mkc k) agg = k.2 := by
    intro k
    simp [hmkc, getCol, List.find?, hbaa]
  have hgetCell : ∀ k : Int × Int, getCol (mkc k) cell = s k := by
    intro k
    simp [hmkc, getCol, List.find?, hb3, hb4]
  have hkey : ∀ k : Int × Int, keyPair addl agg (mkc k) = k := by
    intro k
    unfold keyPair
    rw [hgetAddl, hgetAgg]
  have hkeys : (K.map mkc).map (keyPair addl agg) = K := by
    rw [List.map_map]
    have hpt : ∀ k ∈ K, (keyPair addl agg ∘ mkc) k = id k := by
      intro k _
      simp [Function.comp, hkey]
    rw [List.map_congr_left hpt, List.map_id]
  have hfilter1 : ∀ k ∈ K,
      (K.map mkc).filter (fun r => keyPair addl agg r == k) = [mkc k] := by
    intro k hkmem
    rw [List.filter_map]
    have hcongr : K.filter ((fun r => keyPair addl agg r == k) ∘ mkc)
        = K.filter (fun x => x == k) := by
      refine List.filter_congr ?_
      intro x _
      simp [Function.comp, hkey]
    rw [hcongr, filter_beq_of_nodup K k hKnd hkmem]
    rfl
  rw [hout1]
  unfold columnMethodAgg aggByColumn
  rw [hkeys, uniqueFirst_eq_self_of_nodup K hKnd, List.map_map, List.map_map]
  refine List.map_congr_left ?_
  intro k hkmem
  have hsum : applyAgg AggType.aggSum
      (((K.map mkc).filter (fun r => keyPair addl agg r == k)).map
        (fun r => getCol r cell)) = s k := by
    rw [hfilter1 k hkmem]
    simp [applyAgg, hgetCell]
  simp only [Function.comp]
  rw [hsum]

/-- Witness for `columnAggregator_sum_idempotent` on the concrete two-row
table. -/
theorem columnAggregator_sum_idempotent_witness :
    ("strata" ≠ "county" ∧ "strata" ≠ "Q608_total" ∧ "county" ≠ "Q608_total" ∧
     "strata" ≠ "county_total" ∧ "county" ≠ "county_total") ∧
    columnMethodAgg "strata" "county" "county_total" "re_total" AggType.aggSum
        (columnMethodAgg "strata" "county" "Q608_total" "county_total"
          AggType.aggSum c9rows)
      = (columnMethodAgg "strata" "county" "Q608_total" "county_total"
          AggType.aggSum c9rows).map (renameCol "county_total" "re_total") :=
  ⟨⟨by decide, by decide, by decide, by decide, by decide⟩,
   columnAggregator_sum_idempotent "strata" "county" "Q608_total" "county_total"
     "re_total" c9rows (by decide) (by decide) (by decide) (by decide) (by decide)⟩

theorem getCol_innerFold_not_mem (btn : String) (cols : List String) (r : Row)
    (q : String) (hq : q ∉ cols) :
    getCol (cols.foldl (fun rw c => setCol rw c (getCol rw (btn ++ "_" ++ c))) r) q
      = getCol r q := by
  induction cols generalizing r with
  | nil => rfl
  | cons c cs ih =>
      simp only [List.foldl_cons]
      have hqc : q ≠ c := fun h => hq (h ▸ List.mem_cons_self c cs)
      rw [ih _ (fun h => hq (List.mem_cons_of_mem c h)), getCol_setCol_ne _ _ _ _ hqc]

theorem getCol_innerFold_mem (btn : String) (cols : List String) (r : Row)
    (c : String) (hc : c ∈ cols) (hd : ∀ c' ∈ cols, btn ++ "_" ++ c' ∉ cols) :
    getCol (cols.foldl (fun rw c => setCol rw c (getCol rw (btn ++ "_" ++ c))) r) c
      = getCol r (btn ++ "_" ++ c) := by
  induction cols generalizing r with
  | nil => simp at hc
  | cons c0 cs ih =>
      simp only [List.foldl_cons]
      by_cases hcs : c ∈ cs
      · rw [ih _ hcs ?hd']
        · have hne : btn ++ "_" ++ c ≠ c0 := by
            intro h
            exact hd c hc (h ▸ List.mem_cons_self c0 cs)
          exact getCol_setCol_ne _ _ _ _ hne
        case hd' =>
          intro c' hc' hmem
          exact hd c' (List.mem_cons_of_mem _ hc') (List.mem_cons_of_mem _ hmem)
      · have hc0 : c = c0 := by
          rcases List.mem_cons.mp hc with h | h
          · exact h
          · exact absurd h hcs
        subst hc0
        rw [getCol_innerFold_not_mem btn cs _ c hcs, getCol_setCol_self]

theorem find?_dropCols (r : Row) (qs : List String) (c : String) (hc : c ∉ qs) :
    (dropCols r qs).find? (fun kv => kv.1 == c) = r.find? (fun kv => kv.1 == c) := by
  unfold dropCols
  induction r with
  | nil => rfl
  | cons kv kvs ih =>
      by_cases hk : qs.contains kv.1 = true
      · have hkq : kv.1 ∈ qs := List.elem_iff.mp hk
        have hkc : (kv.1 == c) = false :=
          beq_eq_false_iff_ne.mpr (fun h => hc (h ▸ hkq))
        rw [List.filter_cons_of_neg (by rw [hk]; decide),
          List.find?_cons_of_neg (p := fun kv : String × Int => kv.1 == c) _
            (by simp [hkc]), ih]
      · have hkf : qs.contains kv.1 = false := by
          cases hcb : qs.contains kv.1
          · rfl
          · exact absurd hcb hk
        rw [List.filter_cons_of_pos (by rw [hkf]; decide)]
        by_cases hkc : (kv.1 == c) = true
        · rw [List.find?_cons_of_pos (p := fun kv : String × Int => kv.1 == c) _ hkc,
            List.find?_cons_of_pos (p := fun kv : String × Int => kv.1 == c) _ hkc]
        · rw [List.find?_cons_of_neg (p := fun kv : String × Int => kv.1 == c) _ hkc,
            List.find?_cons_of_neg (p := fun kv : String × Int => kv.1 == c) _ hkc, ih]

theorem getCol_dropCols_not_mem (r : Row) (qs : List String) (c : String)
    (hc : c ∉ qs) :
    getCol (dropCols r qs) c = getCol r c := by
  unfold getCol
  rw [find?_dropCols r qs c hc]

theorem dropCols_keys_not_mem (r : Row) (qs : List String) :
    ∀ kv ∈ dropCols r qs, kv.1 ∉ qs := by
  intro kv hkv
  unfold dropCols at hkv
  rcases List.mem_filter.mp hkv with ⟨_, hpred⟩
  intro hmem
  simp only [Bool.not_eq_true'] at hpred
  have : qs.contains kv.1 = true := by simpa using hmem
  rw [this] at hpred
  cases hpred

/-- Reduction of the fold stage for a row whose brick-type cell matches
exactly one entry of `brick_type` (the three ids 3, 2, 4 are distinct, so the
two non-matching iterations of the outer loop leave the row untouched). -/
theorem sum_columns_eq_innerFold (column_list : List String) (cr : CRow)
    (btName : String) (tid : Int) (hmem : (btName, tid) ∈ brick_type)
    (ht : cr.t = some tid) :
    (sum_columns column_list cr).r
      = column_list.foldl (fun rw c => setCol rw c (getCol rw (btName ++ "_" ++ c))) cr.r := by
  simp only [brick_type, List.mem_cons, List.mem_singleton, List.not_mem_nil,
    or_false] at hmem
  rcases hmem with h | h | h <;>
    (rw [Prod.mk.injEq] at h; obtain ⟨rfl, rfl⟩ := h;
     simp [sum_columns, brick_type, ht])

/-- Claim C7: for a classified row whose brick-type cell is the id found in
the classification stage, every tracked base column of the folded-and-dropped
row holds the value of the matched brick type's prefixed column, every
prefixed question column has been dropped, and the brick-type cell is
unchanged. -/
theorem sum_columns_fold (column_list : List String) (cr : CRow)
    (btName : String) (tid : Int)
    (hfind : brick_type.find? (fun bt => decide (0 < typeTotal cr.r bt.1 column_list))
        = some (btName, tid))
    (ht : cr.t = some tid)
    (hdisj : ∀ c ∈ column_list, c ∉ questionsList column_list) :
    calculate_row_type cr.r column_list = some tid ∧
    (∀ c ∈ column_list,
        getCol (dropQuestions (questionsList column_list) (sum_columns column_list cr)).r c
          = getCol cr.r (btName ++ "_" ++ c)) ∧
    (∀ kv ∈ (dropQuestions (questionsList column_list) (sum_columns column_list cr)).r,
        kv.1 ∉ questionsList column_list) ∧
    (sum_columns column_list cr).t = some tid := by
  have hmem : (btName, tid) ∈ brick_type := List.mem_of_find?_eq_some hfind
  have hd2 : ∀ c' ∈ column_list, btName ++ "_" ++ c' ∉ column_list := by
    intro c' hc' habs
    refine hdisj _ habs ?_
    refine List.mem_flatMap.mpr ⟨c', hc', ?_⟩
    exact List.mem_map.mpr ⟨(btName, tid), hmem, rfl⟩
  refine ⟨?_, ?_, ?_, ?_⟩
  · unfold calculate_row_type
    rw [hfind]
    rfl
  · intro c hc
    unfold dropQuestions
    rw [getCol_dropCols_not_mem _ _ _ (hdisj c hc),
      sum_columns_eq_innerFold column_list cr btName tid hmem ht,
      getCol_innerFold_mem btName column_list cr.r c hc hd2]
  · intro kv hkv
    exact dropCols_keys_not_mem _ _ kv hkv
  · unfold sum_columns
    exact ht

/-- Witness for `sum_columns_fold` on the clay_X = 7 row: the row is
classified as clay (id 3) and its generic column X receives 7. -/
theorem sum_columns_fold_witness :
    (brick_type.find? (fun bt => decide (0 < typeTotal c7row bt.1 ["X"]))
        = some ("clay", 3) ∧
     (∀ c ∈ ["X"], c ∉ questionsList ["X"]) ∧
     getCol c7row ("clay" ++ "_" ++ "X") = 7) ∧
    getCol (dropQuestions (questionsList ["X"]) (sum_columns ["X"] ⟨some 3, c7row⟩)).r "X"
      = getCol c7row ("clay" ++ "_" ++ "X") :=
  ⟨⟨by decide, by decide, by decide⟩,
   (sum_columns_fold ["X"] ⟨some 3, c7row⟩ "clay" 3 (by decide) rfl
      (by decide)).2.1 "X" (by decide)⟩

theorem getCol_groupRow_uid0 (uid0 uid1 : String) (cols : List String)
    (valid : List (Int × Row)) (k : Int × Int) :
    getCol (groupRow uid0 uid1 cols valid k) uid0 = k.1 := by
  unfold getCol groupRow
  simp only [List.cons_append, List.nil_append]
  rw [List.find?_cons_of_pos (p := fun kv : String × Int => kv.1 == uid0) _ (by simp)]

theorem getCol_groupRow_uid1 (uid0 uid1 : String) (cols : List String)
    (valid : List (Int × Row)) (k : Int × Int) (hu : uid0 ≠ uid1) :
    getCol (groupRow uid0 uid1 cols valid k) uid1 = k.2 := by
  unfold getCol groupRow
  simp only [List.cons_append, List.nil_append]
  rw [List.find?_cons_of_neg (p := fun kv : String × Int => kv.1 == uid1) _
      (by simp [hu]),
    List.find?_cons_of_pos (p := fun kv : String × Int => kv.1 == uid1) _ (by simp)]

theorem find?_map_pair (cols : List String) (g : String → Int) (c : String)
    (hc : c ∈ cols) :
    (cols.map (fun x => (x, g x))).find? (fun kv => kv.1 == c) = some (c, g c) := by
  induction cols with
  | nil => simp at hc
  | cons c0 cs ih =>
      rw [List.map_cons]
      by_cases h : c0 = c
      · subst h
        rw [List.find?_cons_of_pos (p := fun kv : String × Int => kv.1 == c0) _ (by simp)]
      · have hcs : c ∈ cs := by
          rcases List.mem_cons.mp hc with h' | h'
          · exact absurd h'.symm h
          · exact h'
        rw [List.find?_cons_of_neg (p := fun kv : String × Int => kv.1 == c) _
            (by simp [h]), ih hcs]

theorem getCol_cons_ne (a : String × Int) (l : List (String × Int)) (c : String)
    (h : (a.1 == c) = false) : getCol (a :: l) c = getCol l c := by
  unfold getCol
  rw [List.find?_cons_of_neg (p := fun kv : String × Int => kv.1 == c) _ (by simp [h])]

theorem getCol_map_pair (cols : List String) (g : String → Int) (c : String)
    (hc : c ∈ cols) : getCol (cols.map (fun x => (x, g x))) c = g c := by
  unfold getCol
  rw [find?_map_pair cols g c hc]

theorem getCol_groupRow_col (uid0 uid1 : String) (cols : List String)
    (valid : List (Int × Row)) (k : Int × Int) (c : String) (hc : c ∈ cols)
    (h0 : c ≠ uid0) (h1 : c ≠ uid1) :
    getCol (groupRow uid0 uid1 cols valid k) c
      = ((valid.filter (fun p => crKey uid1 p == k)).map (fun p => getCol p.2 c)).sum := by
  unfold groupRow
  simp only [List.cons_append, List.nil_append]
  rw [getCol_cons_ne _ _ _ (by simp; exact fun h => h0 h.symm),
    getCol_cons_ne _ _ _ (by simp; exact fun h => h1 h.symm),
    getCol_map_pair cols _ c hc]

theorem brickGroupSum_filter_key (uid0 uid1 : String) (cols : List String)
    (rows : List CRow) (hu : uid0 ≠ uid1) (k : Int × Int) :
    (brickGroupSum uid0 uid1 cols rows).filter
        (fun r => (getCol r uid0, getCol r uid1) == k)
      = (if k ∈ (validRows rows).map (crKey uid1) then
          [groupRow uid0 uid1 cols (validRows rows) k] else []) := by
  unfold brickGroupSum
  rw [List.filter_map]
  have hcongr : (uniqueFirst ((validRows rows).map (crKey uid1))).filter
      ((fun r => (getCol r uid0, getCol r uid1) == k) ∘
        groupRow uid0 uid1 cols (validRows rows))
      = (uniqueFirst ((validRows rows).map (crKey uid1))).filter (fun x => x == k) := by
    refine List.filter_congr ?_
    intro x _
    simp only [Function.comp, getCol_groupRow_uid0, getCol_groupRow_uid1 _ _ _ _ _ hu,
      Prod.mk.eta]
  rw [hcongr]
  by_cases hk : k ∈ (validRows rows).map (crKey uid1)
  · have hk' : k ∈ uniqueFirst ((validRows rows).map (crKey uid1)) :=
      (mem_uniqueFirst _ _).mpr hk
    rw [filter_beq_of_nodup _ k (nodup_uniqueFirst _) hk', if_pos hk]
    rfl
  · have hnil : (uniqueFirst ((validRows rows).map (crKey uid1))).filter
        (fun x => x == k) = [] := by
      refine List.filter_eq_nil_iff.mpr ?_
      intro x hx
      simp only [beq_iff_eq, Bool.not_eq_true]
      intro hxk
      exact hk (hxk ▸ (mem_uniqueFirst _ _).mp hx)
    rw [hnil, if_neg hk]
    rfl

theorem brickGroupSum_mem (uid0 uid1 : String) (cols : List String)
    (rows : List CRow) (r : Row) (hr : r ∈ brickGroupSum uid0 uid1 cols rows) :
    ∃ k, k ∈ (validRows rows).map (crKey uid1) ∧
      r = groupRow uid0 uid1 cols (validRows rows) k := by
  unfold brickGroupSum at hr
  rcases List.mem_map.mp hr with ⟨k, hk, rfl⟩
  exact ⟨k, (mem_uniqueFirst _ _).mp hk, rfl⟩

/-- Filtering the valid (non-missing-key) rows by one concrete key value
corresponds to filtering the classified table by brick-type cell and
identifier value. -/
theorem validRows_filter_key (d : List CRow) (uid1 : String) (t0 v : Int) :
    (validRows d).filter (fun p => crKey uid1 p == (t0, v))
      = ((d.filter (fun cr => (cr.t == some t0) && (getCol cr.r uid1 == v))).map
          (fun cr => (t0, cr.r))) := by
  induction d with
  | nil => rfl
  | cons cr crs ih =>
      rcases hcr : cr.t with _ | t
      · have h1 : validRows (cr :: crs) = validRows crs := by
          unfold validRows
          rw [List.filterMap_cons, hcr]
          rfl
        have h2 : (cr :: crs).filter
            (fun cr => (cr.t == some t0) && (getCol cr.r uid1 == v))
            = crs.filter (fun cr => (cr.t == some t0) && (getCol cr.r uid1 == v)) := by
          refine List.filter_cons_of_neg ?_
          simp [hcr]
        rw [h1, h2, ih]
      · have h1 : validRows (cr :: crs) = (t, cr.r) :: validRows crs := by
          unfold validRows
          rw [List.filterMap_cons, hcr]
          rfl
        rw [h1]
        by_cases hk : (crKey uid1 (t, cr.r) == (t0, v)) = true
        · have hk' : t = t0 ∧ getCol cr.r uid1 = v := by
            simpa [crKey, Prod.ext_iff] using hk
        
          have h2 : (cr :: crs).filter
              (fun cr => (cr.t == some t0) && (getCol cr.r uid1 == v))
              = cr :: crs.filter (fun cr => (cr.t == some t0) && (getCol cr.r uid1 == v)) := by
            refine List.filter_cons_of_pos ?_
            simp [hcr, hk'.1, hk'.2]
          rw [List.filter_cons_of_pos (p := fun q : Int × Row => crKey uid1 q == (t0, v)) hk,
            h2, List.map_cons, ih, hk'.1]
        · have h2 : (cr :: crs).filter
              (fun cr => (cr.t == some t0) && (getCol cr.r uid1 == v))
              = crs.filter (fun cr => (cr.t == some t0) && (getCol cr.r uid1 == v)) := by
            refine List.filter_cons_of_neg ?_
            simp only [crKey, Prod.mk.injEq] at hk
            simp only [hcr, Bool.and_eq_true, beq_iff_eq, Option.some.injEq, not_and]
            intro hts
            intro hgv
            exact hk (by simp [hts, hgv])
          rw [List.filter_cons_of_neg (p := fun q : Int × Row => crKey uid1 q == (t0, v)) hk,
            h2, ih]

/-- Claim C8: in the by-brick-type aggregation, every non-concrete row is
recoded to the merged id 1 in an auxiliary copy appended to the original
table, and the union is grouped by (brick-type cell, next identifier column)
summing the tracked columns; consequently, for any identifier value v the
output holds exactly one merged-category row with key (1, v) precisely when a
non-concrete row with identifier v exists, its totals are the sums over all
non-concrete rows with identifier v (e.g. one clay row plus one sandlime row),
and every concrete-category output row with key (2, v) totals exactly the
original concrete rows with identifier v. -/
theorem brickTypeAggregation_merged (uid0 uid1 : String) (column_list : List String)
    (d : List CRow) (v : Int) (hu : uid0 ≠ uid1)
    (hc0 : uid0 ∉ column_list) (hc1 : uid1 ∉ column_list)
    (hcats : ∀ cr ∈ d, cr.t = some 2 ∨ cr.t = some 3 ∨ cr.t = some 4) :
    (((brickTypeAggregation uid0 uid1 column_list d).2.filter
        (fun r => (getCol r uid0, getCol r uid1) == ((1 : Int), v))).length
      = (if ∃ cr ∈ d, cr.t ≠ some 2 ∧ getCol cr.r uid1 = v then 1 else 0)) ∧
    (∀ r ∈ (brickTypeAggregation uid0 uid1 column_list d).2,
      getCol r uid0 = 1 → getCol r uid1 = v → ∀ c ∈ column_list,
        getCol r c
          = ((d.filter (fun cr => !(cr.t == some 2) && (getCol cr.r uid1 == v))).map
              (fun cr => getCol cr.r c)).sum) ∧
    (∀ r ∈ (brickTypeAggregation uid0 uid1 column_list d).2,
      getCol r uid0 = 2 → getCol r uid1 = v → ∀ c ∈ column_list,
        getCol r c
          = ((d.filter (fun cr => (cr.t == some 2) && (getCol cr.r uid1 == v))).map
              (fun cr => getCol cr.r c)).sum) := by
  have hout : (brickTypeAggregation uid0 uid1 column_list d).2
      = brickGroupSum uid0 uid1 column_list
          (d ++ (d.filter (fun cr => !(cr.t == some 2))).map
            (fun cr => (⟨some 1, cr.r⟩ : CRow))) := rfl
  set recoded : List CRow := (d.filter (fun cr => !(cr.t == some 2))).map
    (fun cr => (⟨some 1, cr.r⟩ : CRow)) with hrec
  set U : List CRow := d ++ recoded with hU
  have hvU : validRows U = validRows d ++ validRows recoded := by
    unfold validRows
    exact List.filterMap_append _ _ _
  have hfil1 : (validRows U).filter (fun p => crKey uid1 p == (1, v))
      = ((d.filter (fun cr => !(cr.t == some 2) && (getCol cr.r uid1 == v))).map
          (fun cr => ((1 : Int), cr.r))) := by
    rw [hvU, List.filter_append]
    have hd1 : (validRows d).filter (fun p => crKey uid1 p == (1, v)) = [] := by
      rw [validRows_filter_key d uid1 1 v]
      have hnil : d.filter (fun cr => (cr.t == some 1) && (getCol cr.r uid1 == v)) = [] := by
        refine List.filter_eq_nil_iff.mpr ?_
        intro cr hcr
        rcases hcats cr hcr with h | h | h <;> simp [h]
      rw [hnil]
      rfl
    have hr1 : (validRows recoded).filter (fun p => crKey uid1 p == (1, v))
        = (recoded.filter (fun cr => getCol cr.r uid1 == v)).map
            (fun cr => ((1 : Int), cr.r)) := by
      rw [validRows_filter_key recoded uid1 1 v]
      congr 1
      refine List.filter_congr ?_
      intro cr hcr
      rw [hrec] at hcr
      rcases List.mem_map.mp hcr with ⟨cr0, _, rfl⟩
      simp
    have hr2 : recoded.filter (fun cr => getCol cr.r uid1 == v)
        = ((d.filter (fun cr => !(cr.t == some 2))).filter
            (fun cr => getCol cr.r uid1 == v)).map
              (fun cr => (⟨some 1, cr.r⟩ : CRow)) := by
      rw [hrec, List.filter_map]
      rfl
    rw [hd1, List.nil_append, hr1, hr2, List.map_map, List.filter_filter]
    have hpred : ∀ cr : CRow,
        ((fun cr => getCol cr.r uid1 == v) cr && (fun cr => !(cr.t == some 2)) cr)
          = (!(cr.t == some 2) && (getCol cr.r uid1 == v)) := by
      intro cr
      exact Bool.and_comm _ _
    rw [List.filter_congr (fun cr _ => hpred cr)]
    rfl
  have hfil2 : (validRows U).filter (fun p => crKey uid1 p == (2, v))
      = ((d.filter (fun cr => (cr.t == some 2) && (getCol cr.r uid1 == v))).map
          (fun cr => ((2 : Int), cr.r))) := by
    rw [hvU, List.filter_append]
    have hr0 : (validRows recoded).filter (fun p => crKey uid1 p == (2, v)) = [] := by
      rw [validRows_filter_key recoded uid1 2 v]
      have hnil : recoded.filter
          (fun cr => (cr.t == some 2) && (getCol cr.r uid1 == v)) = [] := by
        refine List.filter_eq_nil_iff.mpr ?_
        intro cr hcr
        rw [hrec] at hcr
        rcases List.mem_map.mp hcr with ⟨cr0, _, rfl⟩
        simp
      rw [hnil]
      rfl
    rw [hr0, List.append_nil, validRows_filter_key d uid1 2 v]
  refine ⟨?_, ?_, ?_⟩
  · rw [hout, brickGroupSum_filter_key uid0 uid1 column_list U hu (1, v)]
    have hmemiff : ((1, v) ∈ (validRows U).map (crKey uid1))
        ↔ (∃ cr ∈ d, cr.t ≠ some 2 ∧ getCol cr.r uid1 = v) := by
      rw [List.mem_map]
      constructor
      · rintro ⟨p, hp, hkey⟩
        have hpf : p ∈ (validRows U).filter (fun p => crKey uid1 p == (1, v)) :=
          List.mem_filter.mpr ⟨hp, by simp [hkey]⟩
        rw [hfil1] at hpf
        rcases List.mem_map.mp hpf with ⟨cr, hcr, rfl⟩
        rcases List.mem_filter.mp hcr with ⟨hcrd, hpred⟩
        simp only [Bool.and_eq_true, Bool.not_eq_true', beq_iff_eq,
          beq_eq_false_iff_ne] at hpred
        exact ⟨cr, hcrd, hpred.1, hpred.2⟩
      · rintro ⟨cr, hcrd, hne, hv⟩
        refine ⟨(1, cr.r), ?_, by simp [crKey, hv]⟩
        unfold validRows
        refine List.mem_filterMap.mpr ⟨⟨some 1, cr.r⟩, ?_, rfl⟩
        refine List.mem_append.mpr (Or.inr ?_)
        rw [hrec]
        refine List.mem_map.mpr ⟨cr, ?_, rfl⟩
        refine List.mem_filter.mpr ⟨hcrd, by simp [hne]⟩
    by_cases hex : ∃ cr ∈ d, cr.t ≠ some 2 ∧ getCol cr.r uid1 = v
    · rw [if_pos (hmemiff.mpr hex), if_pos hex]
      rfl
    · rw [if_neg (fun hmem => hex (hmemiff.mp hmem)), if_neg hex]
      rfl
  · intro r hr h10 h1v c hc
    rw [hout] at hr
    rcases brickGroupSum_mem uid0 uid1 column_list U r hr with ⟨k, hkmem, rfl⟩
    rw [getCol_groupRow_uid0] at h10
    rw [getCol_groupRow_uid1 _ _ _ _ _ hu] at h1v
    have hkk : k = (1, v) := Prod.ext_iff.mpr ⟨h10, h1v⟩
    subst hkk
    rw [getCol_groupRow_col uid0 uid1 column_list _ _ c hc
        (fun h => hc0 (h ▸ hc)) (fun h => hc1 (h ▸ hc)), hfil1, List.map_map]
    rfl
  · intro r hr h20 h2v c hc
    rw [hout] at hr
    rcases brickGroupSum_mem uid0 uid1 column_list U r hr with ⟨k, hkmem, rfl⟩
    rw [getCol_groupRow_uid0] at h20
    rw [getCol_groupRow_uid1 _ _ _ _ _ hu] at h2v
    have hkk : k = (2, v) := Prod.ext_iff.mpr ⟨h20, h2v⟩
    subst hkk
    rw [getCol_groupRow_col uid0 uid1 column_list _ _ c hc
        (fun h => hc0 (h ▸ hc)) (fun h => hc1 (h ▸ hc)), hfil2, List.map_map]
    rfl

/-- Witness for `brickTypeAggregation_merged` on a clay + sandlime + concrete
triple sharing identifier 9. -/
theorem brickTypeAggregation_merged_witness :
    ("brick_type" ≠ "enterprise_ref" ∧ "brick_type" ∉ ["X"] ∧
     "enterprise_ref" ∉ ["X"] ∧
     (∀ cr ∈ c8data, cr.t = some 2 ∨ cr.t = some 3 ∨ cr.t = some 4)) ∧
    (((brickTypeAggregation "brick_type" "enterprise_ref" ["X"] c8data).2.filter
        (fun r => (getCol r "brick_type", getCol r "enterprise_ref")
          == ((1 : Int), (9 : Int)))).length
      = (if ∃ cr ∈ c8data, cr.t ≠ some 2 ∧ getCol cr.r "enterprise_ref" = 9
         then 1 else 0)) :=
  ⟨⟨by decide, by decide, by decide, by decide⟩,
   (brickTypeAggregation_merged "brick_type" "enterprise_ref" ["X"] c8data 9
      (by decide) (by decide) (by decide) (by decide)).1⟩

theorem insertDesc_perm (x : Int) (l : List Int) : (insertDesc x l).Perm (x :: l) := by
  induction l with
  | nil => exact List.Perm.refl _
  | cons y ys ih =>
      unfold insertDesc
      by_cases h : y ≤ x
      · simp only [h, if_true]
        exact List.Perm.refl _
      · simp only [h, if_false]
        exact (ih.cons y).trans (List.Perm.swap x y ys)

theorem insertDesc_pairwise (x : Int) (l : List Int)
    (h : l.Pairwise (fun a b => b ≤ a)) :
    (insertDesc x l).Pairwise (fun a b => b ≤ a) := by
  induction l with
  | nil => simp [insertDesc]
  | cons y ys ih =>
      unfold insertDesc
      rcases List.pairwise_cons.mp h with ⟨hy, hys⟩
      by_cases hle : y ≤ x
      · simp only [hle, if_true]
        refine List.pairwise_cons.mpr ⟨?_, h⟩
        intro b hb
        rcases List.mem_cons.mp hb with rfl | hb'
        · exact hle
        · exact le_trans (hy b hb') hle
      · simp only [hle, if_false]
        refine List.pairwise_cons.mpr ⟨?_, ih hys⟩
        intro b hb
        have hxy : x ≤ y := le_of_not_le hle
        have hb2 : b ∈ x :: ys := (insertDesc_perm x ys).mem_iff.mp hb
        rcases List.mem_cons.mp hb2 with rfl | hb'
        · exact hxy
        · exact hy b hb'

theorem sortDesc_perm (l : List Int) : (sortDesc l).Perm l := by
  induction l with
  | nil => exact List.Perm.refl _
  | cons x xs ih =>
      unfold sortDesc
      rw [List.foldr_cons]
      exact (insertDesc_perm x _).trans (ih.cons x)

theorem sortDesc_pairwise (l : List Int) :
    (sortDesc l).Pairwise (fun a b => b ≤ a) := by
  induction l with
  | nil => exact List.Pairwise.nil
  | cons x xs ih =>
      unfold sortDesc
      rw [List.foldr_cons]
      exact insertDesc_pairwise x _ ih

theorem sortDesc_head_max (l : List Int) (a : Int) (t : List Int)
    (h : sortDesc l = a :: t) : a ∈ l ∧ ∀ v ∈ l, v ≤ a := by
  have hperm := sortDesc_perm l
  rw [h] at hperm
  constructor
  · exact hperm.mem_iff.mp (List.mem_cons_self a t)
  · intro v hv
    have hv' : v ∈ a :: t := hperm.mem_iff.mpr hv
    rcases List.mem_cons.mp hv' with rfl | hvt
    · exact le_refl v
    · have hp := sortDesc_pairwise l
      rw [h] at hp
      exact (List.pairwise_cons.mp hp).1 v hvt

theorem processCounty_bases (p c : Int) (st : T2State) :
    (processCounty p st c).rows.map (fun r => r.base)
      = st.rows.map (fun r => r.base) := by
  unfold processCounty
  cases h : sortDesc (partitionVals st.rows p c) with
  | nil => rfl
  | cons primary rest =>
      simp only
      rw [List.map_map]
      refine List.map_congr_left ?_
      intro r _
      by_cases hc : (r.base.period == p && r.base.county == c) = true
      · simp [Function.comp, hc]
      · simp [Function.comp, hc]

theorem partitionVals_eq_pvals (rows : List T2Work) (data : List T2Row) (p c : Int)
    (hb : rows.map (fun r => r.base) = data) :
    partitionVals rows p c = pvals data p c := by
  subst hb
  unfold partitionVals pvals
  rw [List.filter_map, List.map_map]
  rfl

theorem processCounty_estab (data : List T2Row) (p c : Int) (st : T2State)
    (hb : st.rows.map (fun r => r.base) = data) :
    GoodPair data p c (processCounty p st c).rows := by
  have hpv := partitionVals_eq_pvals st.rows data p c hb
  rcases hsd : sortDesc (partitionVals st.rows p c) with _ | ⟨primary, rest⟩
  · have hred : processCounty p st c = st := by
      unfold processCounty
      rw [hsd]
    rw [hred]
    intro r hr hp hc
    exfalso
    have hmem : r.base.q608 ∈ partitionVals st.rows p c := by
      unfold partitionVals
      refine List.mem_map.mpr ⟨r, ?_, rfl⟩
      refine List.mem_filter.mpr ⟨hr, by simp [hp, hc]⟩
    have hlen := (sortDesc_perm (partitionVals st.rows p c)).length_eq
    rw [hsd] at hlen
    have hnil : partitionVals st.rows p c = [] :=
      List.eq_nil_of_length_eq_zero hlen.symm
    rw [hnil] at hmem
    exact absurd hmem (List.not_mem_nil _)
  · have hred : processCounty p st c = ⟨st.rows.map (fun r =>
        if r.base.period == p && r.base.county == c
        then ⟨r.base, primary, rest.headD st.secondary⟩ else r),
        rest.headD st.secondary⟩ := by
      unfold processCounty
      rw [hsd]
    rw [hred]
    intro r hr hp hc
    rcases List.mem_map.mp hr with ⟨r0, hr0, rfl⟩
    by_cases hcond : (r0.base.period == p && r0.base.county == c) = true
    · rw [if_pos hcond] at hp hc ⊢
      have hsd' : sortDesc (pvals data p c) = primary :: rest := by
        rw [← hpv]
        exact hsd
      have hmax := sortDesc_head_max (pvals data p c) primary rest hsd'
      refine ⟨⟨hmax.1, hmax.2⟩, ?_⟩
      intro hlen2
      have hlen := (sortDesc_perm (pvals data p c)).length_eq
      rw [hsd'] at hlen
      rcases rest with _ | ⟨s, rest'⟩
      · exfalso
        simp at hlen
        omega
      · rw [hsd']
        rfl
    · rw [if_neg hcond] at hp hc
      exfalso
      apply hcond
      simp [hp, hc]

theorem processCounty_preserve (data : List T2Row) (p c p' c' : Int) (st : T2State)
    (hb : st.rows.map (fun r => r.base) = data)
    (hg : GoodPair data p c st.rows) :
    GoodPair data p c (processCounty p' st c').rows := by
  by_cases heq : p' = p ∧ c' = c
  · rcases heq with ⟨rfl, rfl⟩
    exact processCounty_estab data p' c' st hb
  · rcases hsd : sortDesc (partitionVals st.rows p' c') with _ | ⟨primary, rest⟩
    · have hred : processCounty p' st c' = st := by
        unfold processCounty
        rw [hsd]
      rw [hred]
      exact hg
    · have hred : processCounty p' st c' = ⟨st.rows.map (fun r =>
          if r.base.period == p' && r.base.county == c'
          then ⟨r.base, primary, rest.headD st.secondary⟩ else r),
          rest.headD st.secondary⟩ := by
        unfold processCounty
        rw [hsd]
      rw [hred]
      intro r hr hp hc
      rcases List.mem_map.mp hr with ⟨r0, hr0, rfl⟩
      by_cases hcond : (r0.base.period == p' && r0.base.county == c') = true
      · rw [if_pos hcond] at hp hc
        exfalso
        simp only [Bool.and_eq_true, beq_iff_eq] at hcond
        exact heq ⟨by rw [← hcond.1]; exact hp, by rw [← hcond.2]; exact hc⟩
      · rw [if_neg hcond] at hp hc ⊢
        exact hg r0 hr0 hp hc

theorem foldl_processCounty_bases (p' : Int) (cl : List Int) (st : T2State) :
    ((cl.foldl (processCounty p') st).rows).map (fun r => r.base)
      = st.rows.map (fun r => r.base) := by
  induction cl generalizing st with
  | nil => rfl
  | cons c0 cs ih => rw [List.foldl_cons, ih, processCounty_bases]

theorem foldl_processCounty_preserve (data : List T2Row) (p c p' : Int)
    (cl : List Int) (st : T2State)
    (hb : st.rows.map (fun r => r.base) = data)
    (hg : GoodPair data p c st.rows) :
    GoodPair data p c ((cl.foldl (processCounty p') st).rows) := by
  induction cl generalizing st with
  | nil => exact hg
  | cons c0 cs ih =>
      rw [List.foldl_cons]
      refine ih _ ?_ ?_
      · rw [processCounty_bases, hb]
      · exact processCounty_preserve data p c p' c0 st hb hg

theorem foldl_processCounty_estab (data : List T2Row) (p c : Int)
    (cl : List Int) (st : T2State)
    (hb : st.rows.map (fun r => r.base) = data) (hcm : c ∈ cl) :
    GoodPair data p c ((cl.foldl (processCounty p) st).rows) := by
  induction cl generalizing st with
  | nil => simp at hcm
  | cons c0 cs ih =>
      rw [List.foldl_cons]
      by_cases h : c ∈ cs
      · exact ih _ (by rw [processCounty_bases, hb]) h
      · have hc0 : c0 = c := by
          rcases List.mem_cons.mp hcm with h' | h'
          · exact h'.symm
          · exact absurd h' h
        rw [hc0]
        exact foldl_processCounty_preserve data p c p cs _
          (by rw [processCounty_bases, hb]) (processCounty_estab data p c st hb)

theorem processTemp_bases (p' : Int) (acc : List Int × T2State) (tc : Int) :
    ((processTemp p' acc tc).2.rows).map (fun r => r.base)
      = acc.2.rows.map (fun r => r.base) := by
  unfold processTemp
  exact foldl_processCounty_bases p' _ acc.2

theorem processTemp_fst (p' : Int) (acc : List Int × T2State) (tc : Int) :
    (processTemp p' acc tc).1 = if tc ∈ acc.1 then acc.1 else acc.1 ++ [tc] := rfl

theorem processTemp_estab (data : List T2Row) (p c : Int)
    (acc : List Int × T2State) (tc : Int)
    (hb : acc.2.rows.map (fun r => r.base) = data)
    (hcm : c ∈ acc.1 ∨ c = tc) :
    GoodPair data p c ((processTemp p acc tc).2.rows) := by
  unfold processTemp
  have hccl : c ∈ (if tc ∈ acc.1 then acc.1 else acc.1 ++ [tc]) := by
    rcases hcm with h | rfl
    · by_cases htc : tc ∈ acc.1 <;> simp [htc, h]
    · by_cases htc : c ∈ acc.1 <;> simp [htc]
  exact foldl_processCounty_estab data p c _ acc.2 hb hccl

theorem foldl_processTemp_bases (p' : Int) (temp : List Int)
    (acc : List Int × T2State) :
    (((temp.foldl (processTemp p') acc).2).rows).map (fun r => r.base)
      = acc.2.rows.map (fun r => r.base) := by
  induction temp generalizing acc with
  | nil => rfl
  | cons tc ts ih => rw [List.foldl_cons, ih, processTemp_bases]

theorem foldl_processTemp_preserve (data : List T2Row) (p c p' : Int)
    (temp : List Int) (acc : List Int × T2State)
    (hb : acc.2.rows.map (fun r => r.base) = data)
    (hg : GoodPair data p c acc.2.rows) :
    GoodPair data p c (((temp.foldl (processTemp p') acc).2).rows) := by
  induction temp generalizing acc with
  | nil => exact hg
  | cons tc ts ih =>
      rw [List.foldl_cons]
      refine ih _ ?_ ?_
      · rw [processTemp_bases, hb]
      · unfold processTemp
        exact foldl_processCounty_preserve data p c p' _ acc.2 hb hg

theorem foldl_processTemp_estab (data : List T2Row) (p c : Int)
    (temp : List Int) (acc : List Int × T2State)
    (hb : acc.2.rows.map (fun r => r.base) = data)
    (hacc : c ∈ acc.1 → GoodPair data p c acc.2.rows)
    (hcm : c ∈ acc.1 ∨ c ∈ temp) :
    GoodPair data p c (((temp.foldl (processTemp p) acc).2).rows) := by
  induction temp generalizing acc with
  | nil =>
      rcases hcm with h | h
      · exact hacc h
      · simp at h
  | cons tc ts ih =>
      rw [List.foldl_cons]
      refine ih (processTemp p acc tc) ?_ ?_ ?_
      · rw [processTemp_bases, hb]
      · intro hcmem
        have hor : c ∈ acc.1 ∨ c = tc := by
          rw [processTemp_fst] at hcmem
          by_cases htc : tc ∈ acc.1
          · rw [if_pos htc] at hcmem
            exact Or.inl hcmem
          · rw [if_neg htc] at hcmem
            rcases List.mem_append.mp hcmem with h' | h'
            · exact Or.inl h'
            · exact Or.inr (List.mem_singleton.mp h')
        exact processTemp_estab data p c acc tc hb hor
      · rcases hcm with h | h
        · left
          rw [processTemp_fst]
          by_cases htc : tc ∈ acc.1 <;> simp [htc, h]
        · rcases List.mem_cons.mp h with rfl | h'
          · left
            rw [processTemp_fst]
            by_cases htc : c ∈ acc.1 <;> simp [htc]
          · right
            exact h'

theorem processPeriod_bases (st : T2State) (p' : Int) :
    ((processPeriod st p').rows).map (fun r => r.base)
      = st.rows.map (fun r => r.base) := by
  unfold processPeriod
  exact foldl_processTemp_bases p' _ _

theorem processPeriod_preserve (data : List T2Row) (p c p'' : Int) (st : T2State)
    (hb : st.rows.map (fun r => r.base) = data)
    (hg : GoodPair data p c st.rows) :
    GoodPair data p c ((processPeriod st p'').rows) := by
  unfold processPeriod
  exact foldl_processTemp_preserve data p c p'' _ ([], st) hb hg

theorem processPeriod_estab (data : List T2Row) (p c : Int) (st : T2State)
    (hb : st.rows.map (fun r => r.base) = data)
    (hne : pvals data p c ≠ []) :
    GoodPair data p c ((processPeriod st p).rows) := by
  unfold processPeriod
  have hcm : c ∈ (st.rows.filter (fun r => r.base.period == p)).map
      (fun r => r.base.county) := by
    rcases List.exists_mem_of_ne_nil _ hne with ⟨v, hv⟩
    unfold pvals at hv
    rcases List.mem_map.mp hv with ⟨row, hrow, rfl⟩
    rcases List.mem_filter.mp hrow with ⟨hrd, hpred⟩
    rw [← hb] at hrd
    rcases List.mem_map.mp hrd with ⟨r, hr, hbase⟩
    simp only [Bool.and_eq_true, beq_iff_eq] at hpred
    refine List.mem_map.mpr ⟨r, ?_, ?_⟩
    · refine List.mem_filter.mpr ⟨hr, ?_⟩
      simp [hbase, hpred.1]
    · rw [hbase]
      exact hpred.2
  exact foldl_processTemp_estab data p c _ ([], st) hb
    (fun h => absurd h (List.not_mem_nil c)) (Or.inr hcm)

theorem foldl_processPeriod_bases (ps : List Int) (st : T2State) :
    ((ps.foldl processPeriod st).rows).map (fun r => r.base)
      = st.rows.map (fun r => r.base) := by
  induction ps generalizing st with
  | nil => rfl
  | cons p0 ps' ih => rw [List.foldl_cons, ih, processPeriod_bases]

theorem foldl_processPeriod_preserve (data : List T2Row) (p c : Int)
    (ps : List Int) (st : T2State)
    (hb : st.rows.map (fun r => r.base) = data)
    (hg : GoodPair data p c st.rows) :
    GoodPair data p c ((ps.foldl processPeriod st).rows) := by
  induction ps generalizing st with
  | nil => exact hg
  | cons p0 ps' ih =>
      rw [List.foldl_cons]
      refine ih _ ?_ ?_
      · rw [processPeriod_bases, hb]
      · exact processPeriod_preserve data p c p0 st hb hg

theorem foldl_processPeriod_estab (data : List T2Row) (p c : Int)
    (ps : List Int) (st : T2State)
    (hb : st.rows.map (fun r => r.base) = data)
    (hp : p ∈ ps) (hne : pvals data p c ≠ []) :
    GoodPair data p c ((ps.foldl processPeriod st).rows) := by
  induction ps generalizing st with
  | nil => simp at hp
  | cons p0 ps' ih =>
      rw [List.foldl_cons]
      by_cases h : p ∈ ps'
      · exact ih _ (by rw [processPeriod_bases, hb]) h
      · have hp0 : p0 = p := by
          rcases List.mem_cons.mp hp with h' | h'
          · exact h'.symm
          · exact absurd h' h
        subst hp0
        exact foldl_processPeriod_preserve data p0 c ps' _
          (by rw [processPeriod_bases, hb]) (processPeriod_estab data p0 c st hb hne)

/-- Claim C5: in `calc_top_two`, all output rows of one (period, county)
partition carry identical largest/second values; the largest value is the
maximum of the partition's `Q608_total` values, and for partitions of two or
more rows the second value is the second element of the descending sort of the
partition (`sortDesc` being a descending-ordered permutation, as the last two
conjuncts state). -/
theorem calc_top_two_broadcast (data : List T2Row) (p c : Int) :
    (∀ o1 ∈ calc_top_two data, ∀ o2 ∈ calc_top_two data,
      o1.period = p → o1.county = c → o2.period = p → o2.county = c →
      o1.largest_contributor = o2.largest_contributor ∧
      o1.second_largest_contributor = o2.second_largest_contributor) ∧
    (∀ o ∈ calc_top_two data, o.period = p → o.county = c →
      (o.largest_contributor ∈ pvals data p c ∧
       ∀ v ∈ pvals data p c, v ≤ o.largest_contributor) ∧
      (2 ≤ (pvals data p c).length →
        o.second_largest_contributor = (sortDesc (pvals data p c)).getD 1 0)) ∧
    (sortDesc (pvals data p c)).Perm (pvals data p c) ∧
    (sortDesc (pvals data p c)).Pairwise (fun a b => b ≤ a) := by
  have hinitb : ((data.map (fun r => (⟨r, 0, 0⟩ : T2Work))).map (fun r => r.base))
      = data := by
    rw [List.map_map]
    exact (List.map_congr_left (fun a _ => rfl)).trans (List.map_id data)
  have hWb : ((((uniqueFirst (data.map (fun r => r.period))).foldl processPeriod
      ⟨data.map (fun r => ⟨r, 0, 0⟩), 0⟩).rows).map (fun r => r.base)) = data := by
    rw [foldl_processPeriod_bases]
    exact hinitb
  have hGood : ∀ r ∈ (((uniqueFirst (data.map (fun r => r.period))).foldl processPeriod
      ⟨data.map (fun r => ⟨r, 0, 0⟩), 0⟩).rows), r.base.period = p → r.base.county = c →
      (r.largest ∈ pvals data p c ∧ ∀ v ∈ pvals data p c, v ≤ r.largest) ∧
      (2 ≤ (pvals data p c).length →
        r.second = (sortDesc (pvals data p c)).getD 1 0) := by
    intro r hr hp hc
    have hbd : r.base ∈ data := by
      rw [← hWb]
      exact List.mem_map.mpr ⟨r, hr, rfl⟩
    have hne : pvals data p c ≠ [] := by
      intro hnil
      have hmem : r.base.q608 ∈ pvals data p c := by
        unfold pvals
        refine List.mem_map.mpr ⟨r.base, ?_, rfl⟩
        exact List.mem_filter.mpr ⟨hbd, by simp [hp, hc]⟩
      rw [hnil] at hmem
      exact absurd hmem (List.not_mem_nil _)
    have hpmem : p ∈ uniqueFirst (data.map (fun r => r.period)) := by
      refine (mem_uniqueFirst _ _).mpr ?_
      exact List.mem_map.mpr ⟨r.base, hbd, hp⟩
    have hGP := foldl_processPeriod_estab data p c
      (uniqueFirst (data.map (fun r => r.period)))
      ⟨data.map (fun r => ⟨r, 0, 0⟩), 0⟩ hinitb hpmem hne
    exact hGP r hr hp hc
  have hOut : ∀ o ∈ calc_top_two data, o.period = p → o.county = c →
      (o.largest_contributor ∈ pvals data p c ∧
       ∀ v ∈ pvals data p c, v ≤ o.largest_contributor) ∧
      (2 ≤ (pvals data p c).length →
        o.second_largest_contributor = (sortDesc (pvals data p c)).getD 1 0) := by
    intro o ho hp' hc'
    unfold calc_top_two at ho
    rcases List.mem_map.mp ho with ⟨r, hr, rfl⟩
    exact hGood r hr hp' hc'
  have hcount : ((calc_top_two data).filter
      (fun o => o.period == p && o.county == c)).length
      = (pvals data p c).length := by
    unfold calc_top_two
    rw [List.filter_map, List.length_map]
    have hfc : (((uniqueFirst (data.map (fun r => r.period))).foldl processPeriod
        ⟨data.map (fun r => ⟨r, 0, 0⟩), 0⟩).rows).filter
          ((fun o : T2Out => o.period == p && o.county == c) ∘
            (fun r : T2Work =>
              (⟨r.base.county, r.base.region, r.base.period, r.largest, r.second⟩ : T2Out)))
        = (((uniqueFirst (data.map (fun r => r.period))).foldl processPeriod
        ⟨data.map (fun r => ⟨r, 0, 0⟩), 0⟩).rows).filter
          (fun r => r.base.period == p && r.base.county == c) :=
      List.filter_congr (fun x _ => rfl)
    rw [hfc]
    have hpv := partitionVals_eq_pvals
      (((uniqueFirst (data.map (fun r => r.period))).foldl processPeriod
        ⟨data.map (fun r => ⟨r, 0, 0⟩), 0⟩).rows) data p c hWb
    rw [← hpv]
    unfold partitionVals
    rw [List.length_map]
  refine ⟨?_, hOut, sortDesc_perm _, sortDesc_pairwise _⟩
  intro o1 h1 o2 h2 hp1 hc1 hp2 hc2
  by_cases hlen : 2 ≤ (pvals data p c).length
  · have g1 := hOut o1 h1 hp1 hc1
    have g2 := hOut o2 h2 hp2 hc2
    constructor
    · exact le_antisymm (g2.1.2 _ g1.1.1) (g1.1.2 _ g2.1.1)
    · rw [g1.2 hlen, g2.2 hlen]
  · have g1 := hOut o1 h1 hp1 hc1
    have hge1 : 1 ≤ (pvals data p c).length :=
      List.length_pos.mpr (List.ne_nil_of_mem g1.1.1)
    have hlen1 : ((calc_top_two data).filter
        (fun o => o.period == p && o.county == c)).length = 1 := by
      rw [hcount]
      omega
    have heq := eq_of_filter_length_one (calc_top_two data) _ hlen1 o1 o2
      h1 (by simp [hp1, hc1]) h2 (by simp [hp2, hc2])
    rw [heq]
    exact ⟨rfl, rfl⟩

/-- Witness for `calc_top_two_broadcast` on the partition with values
[10, 30, 20]: largest 30, second 20. -/
theorem calc_top_two_broadcast_witness :
    ((calc_top_two c5data).getD 0 ⟨0, 0, 0, 0, 0⟩).largest_contributor ∈ pvals c5data 1 5 ∧
    (2 ≤ (pvals c5data 1 5).length →
      ((calc_top_two c5data).getD 0 ⟨0, 0, 0, 0, 0⟩).second_largest_contributor
        = (sortDesc (pvals c5data 1 5)).getD 1 0) ∧
    ((calc_top_two c5data).getD 0 ⟨0, 0, 0, 0, 0⟩).largest_contributor = 30 ∧
    (sortDesc (pvals c5data 1 5)).getD 1 0 = 20 :=
  have h := (calc_top_two_broadcast c5data 1 5).2.1
    ((calc_top_two c5data).getD 0 ⟨0, 0, 0, 0, 0⟩) (by decide) (by decide) (by decide)
  ⟨h.1.1, h.2, by decide, by decide⟩

/-- Claim C1 (counterexample): in `c1data` the (period 1, county 7) partition
has exactly one row (value 5), yet because the two-row county 2 partition is
processed first, the loop-carried `secondary_value` is 10 when county 7 is
processed, and the singleton row receives second_largest_contributor = 10
instead of the default 0. -/
theorem calc_top_two_stale_secondary_counterexample :
    (pvals c1data 1 7).length = 1 ∧
    ((calc_top_two c1data).getD 2 ⟨0, 0, 0, 0, 0⟩).period = 1 ∧
    ((calc_top_two c1data).getD 2 ⟨0, 0, 0, 0, 0⟩).county = 7 ∧
    ((calc_top_two c1data).getD 2 ⟨0, 0, 0, 0, 0⟩).largest_contributor = 5 ∧
    ((calc_top_two c1data).getD 2 ⟨0, 0, 0, 0, 0⟩).second_largest_contributor = 10 := by
  decide

theorem filter_len_le_one_of_pairwise (p c : Int) (data : List T2Row)
    (h : data.Pairwise (fun r s => ¬(r.period = s.period ∧ r.county = s.county))) :
    (data.filter (fun s => s.period == p && s.county == c)).length ≤ 1 := by
  induction h with
  | nil => simp
  | @cons r rs hr hrs ih =>
      by_cases hp : (r.period == p && r.county == c) = true
      · rw [List.filter_cons_of_pos
          (p := fun s : T2Row => s.period == p && s.county == c) hp]
        have hnil : rs.filter (fun s => s.period == p && s.county == c) = [] := by
          refine List.filter_eq_nil_iff.mpr ?_
          intro s hs
          simp only [Bool.and_eq_true, beq_iff_eq] at hp
          simp only [Bool.and_eq_true, beq_iff_eq, not_and]
          intro hsp hsc
          exact hr s hs ⟨by rw [hp.1, hsp], by rw [hp.2, hsc]⟩
        rw [hnil]
        simp
      · rw [List.filter_cons_of_neg
          (p := fun s : T2Row => s.period == p && s.county == c) hp]
        exact ih

theorem pvals_short_of_pairwise (data : List T2Row)
    (h : data.Pairwise (fun r s => ¬(r.period = s.period ∧ r.county = s.county)))
    (p c : Int) : (pvals data p c).length ≤ 1 := by
  unfold pvals
  rw [List.length_map]
  exact filter_len_le_one_of_pairwise p c data h

theorem processCounty_zeroInv (data : List T2Row)
    (hshort : ∀ p c, (pvals data p c).length ≤ 1) (p' c' : Int) (st : T2State)
    (hz : ZeroSecondInv data st) : ZeroSecondInv data (processCounty p' st c') := by
  rcases hz with ⟨hb, hsec, hrows⟩
  rcases hsd : sortDesc (partitionVals st.rows p' c') with _ | ⟨primary, rest⟩
  · have hred : processCounty p' st c' = st := by
      unfold processCounty
      rw [hsd]
    rw [hred]
    exact ⟨hb, hsec, hrows⟩
  · have hlen := (sortDesc_perm (partitionVals st.rows p' c')).length_eq
    rw [hsd, partitionVals_eq_pvals st.rows data p' c' hb] at hlen
    have hshort' := hshort p' c'
    have hrest : rest = [] := by
      rcases rest with _ | ⟨s, r'⟩
      · rfl
      · exfalso
        simp at hlen
        omega
    subst hrest
    have hred : processCounty p' st c' = ⟨st.rows.map (fun r =>
        if r.base.period == p' && r.base.county == c'
        then ⟨r.base, primary, ([] : List Int).headD st.secondary⟩ else r),
        ([] : List Int).headD st.secondary⟩ := by
      unfold processCounty
      rw [hsd]
    rw [hred]
    refine ⟨?_, ?_, ?_⟩
    · rw [List.map_map]
      refine (List.map_congr_left ?_).trans hb
      intro r _
      by_cases hc : (r.base.period == p' && r.base.county == c') = true
      · simp [Function.comp, hc]
      · simp [Function.comp, hc]
    · exact hsec
    · intro r hr
      rcases List.mem_map.mp hr with ⟨r0, hr0, rfl⟩
      by_cases hc : (r0.base.period == p' && r0.base.county == c') = true
      · rw [if_pos hc]
        exact hsec
      · rw [if_neg hc]
        exact hrows r0 hr0

theorem foldl_processCounty_zeroInv (data : List T2Row)
    (hshort : ∀ p c, (pvals data p c).length ≤ 1) (p' : Int) (cl : List Int)
    (st : T2State) (hz : ZeroSecondInv data st) :
    ZeroSecondInv data (cl.foldl (processCounty p') st) := by
  induction cl generalizing st with
  | nil => exact hz
  | cons c0 cs ih =>
      rw [List.foldl_cons]
      exact ih _ (processCounty_zeroInv data hshort p' c0 st hz)

theorem foldl_processTemp_zeroInv (data : List T2Row)
    (hshort : ∀ p c, (pvals data p c).length ≤ 1) (p' : Int) (temp : List Int)
    (acc : List Int × T2State) (hz : ZeroSecondInv data acc.2) :
    ZeroSecondInv data ((temp.foldl (processTemp p') acc).2) := by
  induction temp generalizing acc with
  | nil => exact hz
  | cons tc ts ih =>
      rw [List.foldl_cons]
      refine ih _ ?_
      unfold processTemp
      exact foldl_processCounty_zeroInv data hshort p' _ acc.2 hz

theorem processPeriod_zeroInv (data : List T2Row)
    (hshort : ∀ p c, (pvals data p c).length ≤ 1) (p' : Int) (st : T2State)
    (hz : ZeroSecondInv data st) : ZeroSecondInv data (processPeriod st p') := by
  unfold processPeriod
  exact foldl_processTemp_zeroInv data hshort p' _ ([], st) hz

theorem foldl_processPeriod_zeroInv (data : List T2Row)
    (hshort : ∀ p c, (pvals data p c).length ≤ 1) (ps : List Int) (st : T2State)
    (hz : ZeroSecondInv data st) :
    ZeroSecondInv data (ps.foldl processPeriod st) := by
  induction ps generalizing st with
  | nil => exact hz
  | cons p0 ps' ih =>
      rw [List.foldl_cons]
      exact ih _ (processPeriod_zeroInv data hshort p0 st hz)

/-- Claim C1 (amended): the second_largest_contributor written to a singleton
partition is the loop-carried secondary value at the time that partition is
last processed, not an unconditional default; it equals 0 exactly when no
partition of two or more rows was processed earlier.  In particular, when NO
(period, county) partition of the input has two or more rows, every output row
carries second_largest_contributor = 0. -/
theorem calc_top_two_singleton_default (data : List T2Row)
    (hpw : data.Pairwise (fun r s => ¬(r.period = s.period ∧ r.county = s.county))) :
    ∀ o ∈ calc_top_two data, o.second_largest_contributor = 0 := by
  have hshort : ∀ p c, (pvals data p c).length ≤ 1 :=
    fun p c => pvals_short_of_pairwise data hpw p c
  have hinit : ZeroSecondInv data ⟨data.map (fun r => ⟨r, 0, 0⟩), 0⟩ := by
    refine ⟨?_, rfl, ?_⟩
    · rw [List.map_map]
      exact (List.map_congr_left (fun a _ => rfl)).trans (List.map_id data)
    · intro r hr
      rcases List.mem_map.mp hr with ⟨r0, _, rfl⟩
      rfl
  have hfin := foldl_processPeriod_zeroInv data hshort
    (uniqueFirst (data.map (fun r => r.period))) _ hinit
  intro o ho
  unfold calc_top_two at ho
  rcases List.mem_map.mp ho with ⟨r, hr, rfl⟩
  exact hfin.2.2 r hr

/-- Witness for `calc_top_two_singleton_default`: a single row of value 5
yields largest 5 and second 0. -/
theorem calc_top_two_singleton_default_witness :
    c1single.Pairwise (fun r s => ¬(r.period = s.period ∧ r.county = s.county)) ∧
    ((calc_top_two c1single).getD 0 ⟨0, 0, 0, 0, 0⟩).second_largest_contributor = 0 ∧
    ((calc_top_two c1single).getD 0 ⟨0, 0, 0, 0, 0⟩).largest_contributor = 5 :=
  ⟨by decide,
   calc_top_two_singleton_default c1single (by decide) _ (by decide),
   by decide⟩
